import Mathlib

/-!
# CosmoScout VR node editor: embedding and verified properties

The development embeds the node editor library (`csl-node-editor`) and the demo
`MathNode` (`csp-demo-node-editor`) as pure Lean functions with explicit state
passing, and proves properties of them.

* `Node::setID` and the `MathNode` member functions are translated from
  `Node.cpp` and `MathNode.cpp`.
* `NodeGraph.hpp` and `NodeEditor.hpp` only declare their operations; the bodies,
  like the bodies of `Node::readInput` and `Node::writeOutput`, are not part of
  the sources at hand and are modelled from the design document.  Every such
  definition says so in its doc comment.
* `DisplayNode::process` is translated from `DisplayNode.cpp`, the path
  computation of `WebMapTextureLoader::loadTexture` from
  `WebMapTextureLoader.cpp`, and the index computations of `guassianBlur` from
  `AtmosphereEclipseTextureGenerator.cpp`, with 64 bit integers as `Int` and
  explicit reduction to the machine range.
-/

/-! ## Values travelling through sockets and JSON blobs -/

/-- The arithmetic of the C++ type `double` that the nodes use, taken as a parameter:
the literal `0.0`, the four operators and the conversion `static_cast<int>`.
`toInt32` is `none` where the conversion is undefined (the truncated value does
not fit into an `int`). -/
class DoubleOps (D : Type) where
  zero : D
  add : D → D → D
  sub : D → D → D
  mul : D → D → D
  div : D → D → D
  toInt32 : D → Option Int

/-- Exact rational arithmetic, used to instantiate the parameter on concrete inputs. -/
instance ratDoubleOps : DoubleOps Rat where
  zero := 0
  add := fun a b => a + b
  sub := fun a b => a - b
  mul := fun a b => a * b
  div := fun a b => a / b
  toInt32 := fun q =>
    let t := Int.tdiv q.num q.den
    if -2147483648 ≤ t ∧ t < 2147483648 then some t else none

/-- The value kinds of `nlohmann::json` (`value_t`), numbers split as in the library. -/
inductive Json (D : Type) where
  | null : Json D
  | boolean (b : Bool) : Json D
  | number_integer (i : Int) : Json D
  | number_unsigned (n : Nat) : Json D
  | number_float (d : D) : Json D
  | string (s : String) : Json D
  | array (xs : List (Json D)) : Json D
  | object (kvs : List (String × Json D)) : Json D

/-- What reading a JSON value can raise. -/
inductive JsonError where
  /-- The `type_error` with code 302: the value is not a number. -/
  | type_error_302 : JsonError
  /-- The `type_error` with code 305: `operator[]` with a key on a non-object. -/
  | type_error_305 : JsonError
  /-- The `operator[]` on a constant object with a key it does not hold (an assertion
  failure in the library). -/
  | missing_key : JsonError
  /-- The `static_cast<int>` of a `double` that does not fit. -/
  | undefined_cast : JsonError
  deriving DecidableEq, Repr

/-- Conversion of a 64 bit integer to `int` (two's complement, 32 bit). -/
def wrapInt32 (i : Int) : Int :=
  (i + 2147483648) % 4294967296 - 2147483648

/-- The values of a C++ `int`. -/
def IsInt32 (i : Int) : Prop :=
  -2147483648 ≤ i ∧ i < 2147483648

instance (i : Int) : Decidable (IsInt32 i) := by
  unfold IsInt32; infer_instance

/-- The `operator[]` of a constant `nlohmann::json` with a string key. -/
def Json.get {D : Type} (j : Json D) (key : String) : Except JsonError (Json D) :=
  match j with
  | .object kvs =>
    match kvs.lookup key with
    | some v => .ok v
    | none => .error .missing_key
  | _ => .error .type_error_305

/-- Conversion of a JSON value to an enumeration with underlying type `int`
(`from_json` for enums: `get_arithmetic_value` into the underlying type, then a cast). -/
def Json.toEnum {D : Type} [DoubleOps D] (j : Json D) : Except JsonError Int :=
  match j with
  | .number_unsigned n => .ok (wrapInt32 n)
  | .number_integer i => .ok (wrapInt32 i)
  | .number_float d =>
    match DoubleOps.toInt32 d with
    | some i => .ok i
    | none => .error .undefined_cast
  | _ => .error .type_error_302

/-- Conversion of an enumeration to JSON (`to_json` for enums): the underlying integer. -/
def Json.ofEnum {D : Type} (e : Int) : Json D :=
  .number_integer e

/-! ## Node (csl-node-editor/src/Node.cpp) -/

namespace csl.nodeeditor

/-- Modelled from the spec: `Node.hpp`, which declares the members of the base class
`Node`, is not in the sources.  `mID` is the member `Node::setID` assigns in
`Node.cpp`; the two socket caches follow the design document ("per-socket input and
output value caches"), a cache being an association list from socket names to
values.  The back-pointer `mGraph` is represented by the node being stored in a
graph. -/
structure Node (V : Type) where
  mID : Nat
  mInputs : List (String × V)
  mOutputs : List (String × V)

/-- The member function `Node::setID`: `mID = id;`. -/
def Node.setID {V : Type} (self : Node V) (id : Nat) : Node V :=
  { self with mID := id }

/-- Modelled from the spec: the body of `Node::readInput` is not in the sources.
"Cached value if a connection delivered one, else `default`; unknown socket name
returns `default`". -/
def Node.readInput {V : Type} (self : Node V) (socket : String) (defaultValue : V) : V :=
  (self.mInputs.lookup socket).getD defaultValue

/-- Modelled from the spec: the socket caches of `Node.hpp` are not in the sources.
Store a value in a socket cache, replacing an earlier value of that socket. -/
def setCache {V : Type} (cache : List (String × V)) (socket : String) (value : V) :
    List (String × V) :=
  (socket, value) :: cache.filter (fun kv => kv.1 ≠ socket)

end csl.nodeeditor

/-! ## MathNode (csp-demo-node-editor/src/nodes/MathNode.cpp) -/

namespace csp.demonodeeditor

open csl.nodeeditor

/-- The enumeration `MathNode::Operation`, as its underlying `int`. -/
abbrev Operation := Int

/-- The enumerator `Operation::eAdd`. -/
def Operation.eAdd : Operation := 0
/-- The enumerator `Operation::eSubtract`. -/
def Operation.eSubtract : Operation := 1
/-- The enumerator `Operation::eMultiply`. -/
def Operation.eMultiply : Operation := 2
/-- The enumerator `Operation::eDivide`. -/
def Operation.eDivide : Operation := 3

/-- The class `MathNode`: a `Node` with the selected operation `mOperation`, the member
the functions of `MathNode.cpp` read and assign. -/
structure MathNode (D : Type) extends Node D where
  mOperation : Operation

/-- The calls of `writeOutput(socket, value)` a member function makes, in order; what
a call does to the graph is `NodeGraph.writeOutput`. -/
abbrev Writes (D : Type) := List (String × D)

/-- The member function `MathNode::process`.  It returns the node afterwards and the
`writeOutput` calls it made. -/
def MathNode.process {D : Type} [DoubleOps D] (self : MathNode D) : MathNode D × Writes D :=
  let first := self.toNode.readInput "first" DoubleOps.zero
  let second := self.toNode.readInput "second" DoubleOps.zero
  let result : D :=
    if self.mOperation = Operation.eAdd then DoubleOps.add first second
    else if self.mOperation = Operation.eSubtract then DoubleOps.sub first second
    else if self.mOperation = Operation.eMultiply then DoubleOps.mul first second
    else if self.mOperation = Operation.eDivide then DoubleOps.div first second
    else DoubleOps.zero
  (self, [("result", result)])

/-- The member function `MathNode::onMessageFromJS`: `mOperation = message; process();`. -/
def MathNode.onMessageFromJS {D : Type} [DoubleOps D] (self : MathNode D) (message : Json D) :
    Except JsonError (MathNode D × Writes D) :=
  match message.toEnum with
  | .ok op => .ok ({ self with mOperation := op }).process
  | .error e => .error e

/-- The member function `MathNode::getData`: an object with the key "operation". -/
def MathNode.getData {D : Type} (self : MathNode D) : Json D :=
  .object [("operation", Json.ofEnum self.mOperation)]

/-- The member function `MathNode::setData`: `mOperation = json["operation"];`. -/
def MathNode.setData {D : Type} [DoubleOps D] (self : MathNode D) (json : Json D) :
    Except JsonError (MathNode D) :=
  match json.get "operation" with
  | .ok j =>
    match j.toEnum with
    | .ok op => .ok { self with mOperation := op }
    | .error e => .error e
  | .error e => .error e

/-- The entries of the selection widget in `MathNode::SOURCE`:
`<option value="0">Add</option>` and so on, as (value, label). -/
def menuOptions : List (Nat × String) :=
  [(0, "Add"), (1, "Subtract"), (2, "Multiply"), (3, "Divide")]

/-- The message the change listener of the widget sends for an option value:
`parseInt(e.target.value)`, which arrives as an unsigned JSON number. -/
def menuMessage {D : Type} (value : Nat) : Json D :=
  .number_unsigned value

/-- The arithmetic a menu label names. -/
def labelled {D : Type} [DoubleOps D] (label : String) (first second : D) : D :=
  if label = "Add" then DoubleOps.add first second
  else if label = "Subtract" then DoubleOps.sub first second
  else if label = "Multiply" then DoubleOps.mul first second
  else if label = "Divide" then DoubleOps.div first second
  else DoubleOps.zero

end csp.demonodeeditor

/-! ## NodeGraph (csl-node-editor/src/NodeGraph.hpp) -/

namespace csl.nodeeditor

open csp.demonodeeditor

/-- Modelled from the spec: `Connection.hpp` is not in the sources.  A connection is
"(fromNodeId, fromSocket, toNodeId, toSocket)"; the member names are those the
graph interface uses for its parameters. -/
structure Connection where
  mFromNode : Nat
  mFromSocket : String
  mToNode : Nat
  mToSocket : String
  deriving DecidableEq, Repr

/-- What the `std::unique_ptr<Node>` of the node table can point to: a `MathNode`, or
a node of another type, of which only the base class is represented. -/
inductive AnyNode (D : Type) where
  | math (n : MathNode D) : AnyNode D
  | other (n : Node D) : AnyNode D

/-- The base class part of a node. -/
def AnyNode.toNode {D : Type} : AnyNode D → Node D
  | .math n => n.toNode
  | .other n => n

/-- Apply a change to the base class part of a node. -/
def AnyNode.mapNode {D : Type} (f : Node D → Node D) : AnyNode D → AnyNode D
  | .math n => .math { n with toNode := f n.toNode }
  | .other n => .other (f n)

/-- The member function `Node::setID`, through a base class pointer. -/
def AnyNode.setID {D : Type} (self : AnyNode D) (id : Nat) : AnyNode D :=
  self.mapNode (fun n => n.setID id)

/-- The virtual member function `Node::process`, through a base class pointer.  For
node types other than `MathNode` the computation is the parameter `behaviour`, "a
pure function of current input caches to new output-cache writes". -/
def AnyNode.process {D : Type} [DoubleOps D] (behaviour : Node D → Writes D) :
    AnyNode D → AnyNode D × Writes D
  | .math n => (.math n.process.1, n.process.2)
  | .other n => (.other n, behaviour n)

/-- Modelled from the spec: the error kinds of the design document that the graph
reports (the header declares the operations as `void`). -/
inductive GraphError where
  | NotFound : GraphError
  | ProtocolError : GraphError
  | GraphInvariantError : GraphError
  | GraphCycleError : GraphError
  deriving DecidableEq, Repr

/-- Modelled from the spec: the dirty marking of the class `NodeGraph` has no
counterpart in the header.  `mNodes` and `mConnections` are the two members the
header declares (the unordered map as an association list, the list as a list).
The other three follow the design document: `mDirty` holds the nodes marked dirty
for the next pass, `mFirstPass` tells that no pass has run yet ("all nodes on the
first call"), and `mTrace` is a ghost member recording, in order, the ids of the
nodes whose process step has run. -/
structure NodeGraph (D : Type) where
  mNodes : List (Nat × AnyNode D)
  mConnections : List Connection
  mDirty : List Nat
  mFirstPass : Bool
  mTrace : List Nat

namespace NodeGraph

variable {D : Type}

/-- The constructor `NodeGraph::NodeGraph()`: no nodes, no connections. -/
def empty : NodeGraph D :=
  { mNodes := [], mConnections := [], mDirty := [], mFirstPass := true, mTrace := [] }

/-- The keys of the node table. -/
def ids (g : NodeGraph D) : List Nat :=
  g.mNodes.map Prod.fst

/-- Lookup in the node table. -/
def find (g : NodeGraph D) (id : Nat) : Option (AnyNode D) :=
  g.mNodes.lookup id

/-- Modelled from the spec: the body of `NodeGraph::getInputConnection` is not in the
sources.  "Gets a connection which is connected to a given input socket." -/
def getInputConnection (g : NodeGraph D) (toNodeID : Nat) (toSocket : String) :
    Option Connection :=
  g.mConnections.find? (fun c => decide (c.mToNode = toNodeID ∧ c.mToSocket = toSocket))

/-- Modelled from the spec: the body of `NodeGraph::getInputConnections` is not in the
sources.  "Gets all input connections connected to a given node." -/
def getInputConnections (g : NodeGraph D) (toNodeID : Nat) : List Connection :=
  g.mConnections.filter (fun c => decide (c.mToNode = toNodeID))

/-- Modelled from the spec: the body of `NodeGraph::getOutputConnections` is not in the
sources.  "Gets a list of connections which are connected to a given output socket." -/
def getOutputConnections (g : NodeGraph D) (fromNodeID : Nat) (fromSocket : String) :
    List Connection :=
  g.mConnections.filter (fun c => decide (c.mFromNode = fromNodeID ∧ c.mFromSocket = fromSocket))

/-- Modelled from the spec: the body of `NodeGraph::addNode` is not in the sources.
"Takes ownership, inserts into the table, sets node's id and back-reference."  The
caller guarantees that the id is new; an entry with the same id is replaced. -/
def addNode (g : NodeGraph D) (id : Nat) (node : AnyNode D) : NodeGraph D :=
  { g with mNodes := (id, node.setID id) :: g.mNodes.filter (fun kv => decide (kv.1 ≠ id)) }

/-- Modelled from the spec: the body of `NodeGraph::removeNode` is not in the sources.
"Removes every connection incident to id, then destroys the node.  No-op/reports
NotFound if id is absent." -/
def removeNode (g : NodeGraph D) (id : Nat) : Except GraphError (NodeGraph D) :=
  if id ∈ g.ids then
    .ok { g with
      mConnections := g.mConnections.filter
        (fun c => decide (c.mFromNode ≠ id ∧ c.mToNode ≠ id)),
      mNodes := g.mNodes.filter (fun kv => decide (kv.1 ≠ id)) }
  else .error .NotFound

/-- Modelled from the spec: the body of `NodeGraph::addConnection` is not in the
sources.  "Validates both nodes exist; enforces the single-producer-per-input
invariant; appends the connection; marks the downstream node dirty."  Of the two
policies the document allows, a second connection into a connected input is
rejected ("GraphInvariantError (duplicate input connection, operation referencing
a missing node): mutation rejected"). -/
def addConnection (g : NodeGraph D) (fromNode : Nat) (fromSocket : String) (toNode : Nat)
    (toSocket : String) : Except GraphError (NodeGraph D) :=
  if fromNode ∈ g.ids ∧ toNode ∈ g.ids then
    if (g.getInputConnection toNode toSocket).isSome then .error .GraphInvariantError
    else .ok { g with
      mConnections := g.mConnections ++ [⟨fromNode, fromSocket, toNode, toSocket⟩],
      mDirty := g.mDirty ++ [toNode] }
  else .error .GraphInvariantError

/-- Modelled from the spec: the body of `NodeGraph::removeConnection` is not in the
sources.  "Removes the matching connection if present; marks the downstream node
dirty." -/
def removeConnection (g : NodeGraph D) (fromNode : Nat) (fromSocket : String) (toNode : Nat)
    (toSocket : String) : NodeGraph D :=
  if (⟨fromNode, fromSocket, toNode, toSocket⟩ : Connection) ∈ g.mConnections then
    { g with
      mConnections := g.mConnections.filter
        (fun c => decide (c ≠ ⟨fromNode, fromSocket, toNode, toSocket⟩)),
      mDirty := g.mDirty ++ [toNode] }
  else g

end NodeGraph

/-- The four mutating calls of the node editor API. -/
inductive GraphOp (D : Type) where
  | addNode (id : Nat) (node : AnyNode D) : GraphOp D
  | removeNode (id : Nat) : GraphOp D
  | addConnection (fromNode : Nat) (fromSocket : String) (toNode : Nat) (toSocket : String) :
      GraphOp D
  | removeConnection (fromNode : Nat) (fromSocket : String) (toNode : Nat)
      (toSocket : String) : GraphOp D

namespace NodeGraph

variable {D : Type}

/-- The graph after one call; a rejected call leaves the graph as it was. -/
def exec (g : NodeGraph D) : GraphOp D → NodeGraph D
  | .addNode id node => g.addNode id node
  | .removeNode id =>
    match g.removeNode id with
    | .ok g1 => g1
    | .error _ => g
  | .addConnection f fs t ts =>
    match g.addConnection f fs t ts with
    | .ok g1 => g1
    | .error _ => g
  | .removeConnection f fs t ts => g.removeConnection f fs t ts

/-- The graph a sequence of calls builds from the empty graph. -/
def run (ops : List (GraphOp D)) : NodeGraph D :=
  ops.foldl exec empty

end NodeGraph

end csl.nodeeditor

/-! ## Writing outputs and the evaluation pass -/

namespace csl.nodeeditor

open csp.demonodeeditor

namespace NodeGraph

variable {D : Type}

/-- Modelled from the spec: access to a node "by id lookup", for the missing bodies
of `Node::writeOutput` and `NodeGraph::process`.  Apply a change to the base class
part of the node stored under `id`. -/
def updateNode (g : NodeGraph D) (id : Nat) (f : Node D → Node D) : NodeGraph D :=
  { g with mNodes := g.mNodes.map (fun kv => if kv.1 = id then (kv.1, kv.2.mapNode f) else kv) }

/-- Modelled from the spec: access to a node "by id lookup", for the missing body of
`NodeGraph::process`.  Replace the node stored under `id`. -/
def setNode (g : NodeGraph D) (id : Nat) (node : AnyNode D) : NodeGraph D :=
  { g with mNodes := g.mNodes.map (fun kv => if kv.1 = id then (kv.1, node) else kv) }

/-- Modelled from the spec: part of the missing body of `Node::writeOutput`.  One
connection carries a written value: "each write immediately updates the downstream
input cache and marks the downstream node dirty for the next pass". -/
def deliver (value : D) (g : NodeGraph D) (c : Connection) : NodeGraph D :=
  let g1 := g.updateNode c.mToNode
    (fun n => { n with mInputs := setCache n.mInputs c.mToSocket value })
  { g1 with mDirty := g1.mDirty ++ [c.mToNode] }

/-- Modelled from the spec: the body of `Node::writeOutput` is not in the sources.
"Stores the value and triggers downstream dirty propagation", for the node `id` of
the graph: every connection leaving the socket carries the value. -/
def writeOutput (g : NodeGraph D) (id : Nat) (socket : String) (value : D) : NodeGraph D :=
  let g1 := g.updateNode id (fun n => { n with mOutputs := setCache n.mOutputs socket value })
  (g1.getOutputConnections id socket).foldl (deliver value) g1

/-- Modelled from the spec: part of the missing body of `NodeGraph::process`.  The
effect on the graph of a member function of node `id` that ran a process step: the
node afterwards is stored, its `writeOutput` calls are carried out in order, and
the ghost trace records the step. -/
def commit (g : NodeGraph D) (id : Nat) (node : AnyNode D) (writes : Writes D) : NodeGraph D :=
  let g1 := g.setNode id node
  let g2 := writes.foldl (fun acc w => acc.writeOutput id w.1 w.2) g1
  { g2 with mTrace := g2.mTrace ++ [id] }

/-- Modelled from the spec: part of the missing body of `NodeGraph::process`.  The
process step of the node `id`, a virtual call of `Node::process`; nothing happens
when the id is not in the table. -/
def processNode [DoubleOps D] (behaviour : Node D → Writes D) (g : NodeGraph D) (id : Nat) :
    NodeGraph D :=
  match g.find id with
  | none => g
  | some node => g.commit id (node.process behaviour).1 (node.process behaviour).2

/-- Modelled from the spec: the body of `NodeEditor::handleCustomEvent` is not in the
sources.  A custom message is "routed to that node's onMessage; unknown nodeId is
reported"; for a `MathNode` this is the call of `MathNode::onMessageFromJS`.  Nodes
of other types ignore the message. -/
def onMessageFromJS [DoubleOps D] (g : NodeGraph D) (id : Nat) (message : Json D) :
    Except (GraphError ⊕ JsonError) (NodeGraph D) :=
  match g.find id with
  | none => .error (.inl .ProtocolError)
  | some (.other _) => .ok g
  | some (.math n) =>
    match n.onMessageFromJS message with
    | .ok r => .ok (g.commit id (.math r.1) r.2)
    | .error e => .error (.inr e)

/-- Modelled from the spec: part of the missing body of `NodeGraph::process`.  One
round of following connections: the list with the downstream nodes of its members
appended. -/
def succStep (cs : List Connection) (S : List Nat) : List Nat :=
  S ++ (cs.filter (fun c => decide (c.mFromNode ∈ S))).map (fun c => c.mToNode)

/-- Modelled from the spec: part of the missing body of `NodeGraph::process`.  The
given number of rounds of `succStep`. -/
def succClosure (cs : List Connection) : Nat → List Nat → List Nat
  | 0, S => S
  | n + 1, S => succClosure cs n (succStep cs S)

/-- Modelled from the spec: part of the missing body of `NodeGraph::process`.  The
nodes a pass starts from: "the dirty set (all nodes on the first call)"; ids that
are not in the table any more are skipped. -/
def roots (g : NodeGraph D) : List Nat :=
  if g.mFirstPass then g.ids else g.mDirty.filter (fun v => decide (v ∈ g.ids))

/-- Modelled from the spec: part of the missing body of `NodeGraph::process`.  The
"nodes reachable from the dirty set" along connections, each once; one round per
connection and one more reach all of them. -/
def dirtyReachable (g : NodeGraph D) : List Nat :=
  (succClosure g.mConnections (g.mConnections.length + 1) (roots g)).dedup

/-- Modelled from the spec: part of the missing body of `NodeGraph::process`.  A node
can run when none of the nodes still waiting produces one of its inputs. -/
def ready (cs : List Connection) (waiting : List Nat) (v : Nat) : Bool :=
  cs.all (fun c => !(decide (c.mToNode = v) && decide (c.mFromNode ∈ waiting)))

/-- Modelled from the spec: part of the missing body of `NodeGraph::process`.  A
topological order of the waiting nodes: repeatedly the first node that is ready.
The result is `none` when nodes are waiting and none is ready (or the fuel, one
unit per waiting node, is used up). -/
def topoOrder (cs : List Connection) : Nat → List Nat → Option (List Nat)
  | _, [] => some []
  | 0, _ :: _ => none
  | fuel + 1, w :: ws =>
    match (w :: ws).find? (ready cs (w :: ws)) with
    | none => none
    | some v => (topoOrder cs fuel ((w :: ws).erase v)).map (fun rest => v :: rest)

/-- Modelled from the spec: part of the missing body of `NodeGraph::process`.  The
order in which a pass runs the dirty-reachable nodes, `none` for a cycle. -/
def schedule (g : NodeGraph D) : Option (List Nat) :=
  topoOrder g.mConnections (dirtyReachable g).length (dirtyReachable g)

/-- Modelled from the spec: the body of `NodeGraph::process` is not in the sources.
"Compute a topological order over nodes reachable from the dirty set.  Before any
output is written, verify acyclicity over the dirty-reachable subgraph; if a cycle
exists, fail the whole pass with no writes committed.  Execute each node's process
step in topological order."  The result is the graph afterwards and the outcome. -/
def process [DoubleOps D] (behaviour : Node D → Writes D) (g : NodeGraph D) :
    NodeGraph D × Except GraphError Unit :=
  match schedule g with
  | none => (g, .error .GraphCycleError)
  | some order =>
    (order.foldl (processNode behaviour) { g with mDirty := [], mFirstPass := false }, .ok ())

/-- Among the connections `cs` there is one from `u` to `v`. -/
def ConnEdge (cs : List Connection) (u v : Nat) : Prop :=
  ∃ c ∈ cs, c.mFromNode = u ∧ c.mToNode = v

/-- There is a connection from `u` to `v`. -/
def Edge (g : NodeGraph D) (u v : Nat) : Prop :=
  ConnEdge g.mConnections u v

/-- The node `v` is reachable from the dirty set along connections. -/
def DirtyReachable (g : NodeGraph D) (v : Nat) : Prop :=
  ∃ r ∈ roots g, Relation.ReflTransGen (Edge g) r v

/-- No node reaches itself along one or more connections. -/
def Acyclic (g : NodeGraph D) : Prop :=
  ∀ v, ¬ Relation.TransGen (Edge g) v v

/-- Both endpoints of every connection are in the node table. -/
def EndpointsPresent (g : NodeGraph D) : Prop :=
  ∀ c ∈ g.mConnections, c.mFromNode ∈ g.ids ∧ c.mToNode ∈ g.ids

/-- The number of connections into an input socket. -/
def inputCount (g : NodeGraph D) (toNode : Nat) (toSocket : String) : Nat :=
  (g.mConnections.filter (fun c => decide (c.mToNode = toNode ∧ c.mToSocket = toSocket))).length

/-- The single-producer invariant: at most one connection into each input socket. -/
def SingleProducer (g : NodeGraph D) : Prop :=
  ∀ n s, g.inputCount n s ≤ 1

/-- Every node a connection leads to from a member is a member. -/
def SuccClosed (cs : List Connection) (S : List Nat) : Prop :=
  ∀ c ∈ cs, c.mFromNode ∈ S → c.mToNode ∈ S

/-- The number of connections that lead into the list. -/
def intoCount (cs : List Connection) (S : List Nat) : Nat :=
  (cs.filter (fun c => decide (c.mToNode ∈ S))).length

/-- In the list, `a` stands before an occurrence of `b`. -/
def Before (a b : Nat) (l : List Nat) : Prop :=
  ∃ l1 l2, l = l1 ++ a :: l2 ∧ b ∈ l2

end NodeGraph

end csl.nodeeditor

/-! ## NodeEditor (csl-node-editor/src/NodeEditor.hpp) and DisplayNode -/

namespace csl.nodeeditor

open csp.demonodeeditor

/-- Modelled from the spec: the errors of the missing class `NodeFactory`; "`create` on
an unknown type name reports a distinct unknown type error", "duplicate
registration is an error". -/
inductive FactoryError where
  | UnknownType : FactoryError
  | DuplicateRegistration : FactoryError
  deriving DecidableEq, Repr

/-- Modelled from the spec: `NodeFactory.hpp` is not in the sources.  The factory is a
"registry mapping a type name to constructor"; an entry holds the node in its
default state that the constructor returns. -/
structure NodeFactory (D : Type) where
  mCreators : List (String × AnyNode D)

/-- Modelled from the spec: the missing registration function of `NodeFactory`; "one
entry per name; duplicate registration is an error". -/
def NodeFactory.register {D : Type} (self : NodeFactory D) (typeName : String)
    (node : AnyNode D) : Except FactoryError (NodeFactory D) :=
  if typeName ∈ self.mCreators.map Prod.fst then .error .DuplicateRegistration
  else .ok { self with mCreators := self.mCreators ++ [(typeName, node)] }

/-- Modelled from the spec: the missing function `create` of `NodeFactory`; a "new
Node in a default state", and the unknown type error for a name that is not
registered. -/
def NodeFactory.create {D : Type} (self : NodeFactory D) (typeName : String) :
    Except FactoryError (AnyNode D) :=
  match self.mCreators.lookup typeName with
  | some node => .ok node
  | none => .error .UnknownType

/-- The virtual member function `Node::setData`, through a base class pointer.  Nodes
of types other than `MathNode` keep no state that is represented here. -/
def AnyNode.setData {D : Type} [DoubleOps D] (self : AnyNode D) (json : Json D) :
    Except JsonError (AnyNode D) :=
  match self with
  | .math n =>
    match n.setData json with
    | .ok n1 => .ok (.math n1)
    | .error e => .error e
  | .other n => .ok (.other n)

/-- The virtual member function `Node::getData`, through a base class pointer.  Nodes
of types other than `MathNode` keep no state that is represented here. -/
def AnyNode.getData {D : Type} (self : AnyNode D) : Json D :=
  match self with
  | .math n => n.getData
  | .other _ => .null

/-- Modelled from the spec: the members `mFactory` and `mGraph` of the class
`NodeEditor` are declared in the header; the counter for node ids follows the
design document ("a monotonically increasing counter owned by NodeEditor").  The
server and socket members are left out. -/
structure NodeEditor (D : Type) where
  mFactory : NodeFactory D
  mGraph : NodeGraph D
  mNextID : Nat

/-- Modelled from the spec: the body of `NodeEditor::handleAddNodeEvent` is not in the
sources.  "`AddNode{type, data?}`: factory-create, graph.addNode, reply with
assigned id and initial state snapshot"; an unknown type name or malformed data is
a ProtocolError, "logged, event dropped".  The result is the editor afterwards and
the reply. -/
def NodeEditor.handleAddNodeEvent {D : Type} [DoubleOps D] (self : NodeEditor D)
    (typeName : String) (data : Option (Json D)) :
    NodeEditor D × Except GraphError (Nat × Json D) :=
  match self.mFactory.create typeName with
  | .error _ => (self, .error .ProtocolError)
  | .ok node =>
    match (match data with
      | some json => node.setData json
      | none => .ok node) with
    | .error _ => (self, .error .ProtocolError)
    | .ok node1 =>
      ({ self with
          mGraph := self.mGraph.addNode self.mNextID node1,
          mNextID := self.mNextID + 1 },
        .ok (self.mNextID, node1.getData))

end csl.nodeeditor

namespace csp.demonodeeditor

open csl.nodeeditor

/-- The class `DisplayNode`: a `Node` without members of its own. -/
structure DisplayNode (D : Type) extends Node D

/-- What a call of `DisplayNode::process` does besides changing the node: the
`writeOutput` calls and the messages passed to `sendMessageToJS`, in order. -/
structure DisplayEffects (D : Type) where
  writes : Writes D
  messages : List (Json D)

/-- The non-constant `operator[]` of `nlohmann::json` with a string key, followed by
an assignment: on an object the key gets the value (a null value becomes an object
first); on other values it raises the `type_error` with code 305. -/
def jsonSet {D : Type} (j : Json D) (key : String) (value : Json D) :
    Except JsonError (Json D) :=
  match j with
  | .object kvs => .ok (.object (kvs.filter (fun kv => kv.1 ≠ key) ++ [(key, value)]))
  | .null => .ok (.object [(key, value)])
  | _ => .error .type_error_305

/-- The member function `DisplayNode::process`: an empty JSON object gets the key
"value" with the number read from the input "number", and is sent to the editor. -/
def DisplayNode.process {D : Type} [DoubleOps D] (self : DisplayNode D) :
    Except JsonError (DisplayNode D × DisplayEffects D) :=
  let json : Json D := .object []
  match jsonSet json "value" (.number_float (self.toNode.readInput "number" DoubleOps.zero)) with
  | .ok json1 => .ok (self, { writes := [], messages := [json1] })
  | .error e => .error e

end csp.demonodeeditor

/-! ## WebMapTextureLoader (csp-simple-wms-bodies/src/WebMapTextureLoader.cpp) -/

namespace csp.simplewmsbodies

/-- A `std::string`, as the list of its characters. -/
abbrev CppString := List Char

/-- The characters of `boost::is_any_of("*.,:[|]\"")`. -/
def forbiddenChars : List Char :=
  ['*', '.', ',', ':', '[', '|', ']', '"']

/-- The call `boost::replace_copy_if(layer, std::back_inserter(layerFixed),
boost::is_any_of(...), '_')`: a copy in which every forbidden character is replaced
by an underscore. -/
def layerFixed (layer : CppString) : CppString :=
  layer.map (fun c => if c ∈ forbiddenChars then '_' else c)

/-- The call `std::replace(first, last, oldValue, newValue)` on a whole string. -/
def replaceChar (s : CppString) (oldValue newValue : Char) : CppString :=
  s.map (fun c => if c = oldValue then newValue else c)

/-- A `std::stringstream`, as far as writing goes: the character sequence of its
buffer and the put position. -/
structure StringStream where
  buffer : CppString
  putPos : Nat

/-- The default constructor of `std::stringstream`. -/
def StringStream.empty : StringStream :=
  { buffer := [], putPos := 0 }

/-- The constructor of `std::stringstream` from a string, with the default open mode:
the buffer holds the string and the put position is at its start. -/
def StringStream.ofString (s : CppString) : StringStream :=
  { buffer := s, putPos := 0 }

/-- The operator `<<` with a string: the characters are stored from the put position
on, over the characters that were there, and the put position moves behind them. -/
def StringStream.write (self : StringStream) (s : CppString) : StringStream :=
  { buffer := self.buffer.take self.putPos ++ s ++ self.buffer.drop (self.putPos + s.length),
    putPos := self.putPos + s.length }

/-- The member function `str()`: the character sequence of the buffer. -/
def StringStream.str (self : StringStream) : CppString :=
  self.buffer

/-- The call `std::getline(stream, line, delim)` on a stream constructed from `s`
that was not read before: the characters before the first delimiter. -/
def getline (s : CppString) (delim : Char) : CppString :=
  s.takeWhile (fun c => c ≠ delim)

/-- The strings `loadTexture` has computed when it reaches the file system. -/
structure CachePaths where
  cacheDir : CppString
  cacheFile : CppString
  url : CppString

/-- The member function `WebMapTextureLoader::loadTexture` up to the construction of
`cacheFilePath`: the cache directory, the cache file and the request URL.  What
follows in the function touches the file system and the network and does not
change these strings. -/
def loadTexturePaths (time requestStr layer mapCache : CppString) : CachePaths :=
  let fixed := layerFixed layer
  let cacheDir0 :=
    (((StringStream.empty.write mapCache).write ['/']).write fixed).write ['/']
  let cacheDir :=
    if time ≠ [] then (cacheDir0.write (getline time '-')).write ['/'] else cacheDir0
  let cacheFile0 := StringStream.ofString cacheDir.str
  let url0 := StringStream.empty.write requestStr
  if time ≠ [] then
    let url := (url0.write "&TIME=".toList).write time
    let time1 := replaceChar (replaceChar time '/' '-') ':' '-'
    let cacheFile := ((cacheFile0.write cacheDir.str).write time1).write ".png".toList
    { cacheDir := cacheDir.str, cacheFile := cacheFile.str, url := url.str }
  else
    let cacheFile := ((cacheFile0.write cacheDir.str).write fixed).write ".png".toList
    { cacheDir := cacheDir.str, cacheFile := cacheFile.str, url := url0.str }

end csp.simplewmsbodies

/-! ## Gaussian blur (cs-graphics/eclipse-shadows/AtmosphereEclipseTextureGenerator.cpp) -/

namespace cs.graphics

/-- The value of an `int64_t` computation: the mathematical result reduced to the
two's complement range. -/
def wrapInt64 (i : Int) : Int :=
  (i + 9223372036854775808) % 18446744073709551616 - 9223372036854775808

/-- Conversion to `size_t` (64 bit, unsigned). -/
def toSizeT (i : Int) : Int :=
  i % 18446744073709551616

/-- The function `glm::abs` on an `int64_t`. -/
def abs64 (i : Int) : Int :=
  if i < 0 then wrapInt64 (-i) else i

/-- The constant `filterRadius` of `guassianBlur<RADIUS>`: the `size_t` template
parameter as an `int64_t`. -/
def filterRadius (radius : Nat) : Int :=
  wrapInt64 radius

/-- The constant `filterSize` of `guassianBlur<RADIUS>`: `RADIUS * 2 + 1`, computed
as a `size_t` and stored as an `int64_t`. -/
def filterSize (radius : Nat) : Int :=
  wrapInt64 (toSizeT (radius * 2 + 1))

/-- The template argument `SIZE` of `generateGaussianKernel<filterSize>`, the extent of
the kernel in each direction: `filterSize` as a `size_t`. -/
def kernelSize (radius : Nat) : Int :=
  toSizeT (filterSize radius)

/-- The index `x + filterRadius` that the lambda `filterWeight` computes from its
`size_t` parameter: the sum is taken in `size_t`. -/
def filterWeightIndex (radius : Nat) (x : Int) : Int :=
  toSizeT (x + toSizeT (filterRadius radius))

/-- The kernel index for a loop offset: the call `filterWeight(i, j)` converts the
`int64_t` offset to `size_t`. -/
def kernelIndex (radius : Nat) (offset : Int) : Int :=
  filterWeightIndex radius (toSizeT offset)

/-- The coordinate `dx` (and likewise `dy`) of the pixel read for position `x` and
offset `i`: `glm::abs(x + i)`, replaced by `width - 1` when it is not below
`width`. -/
def clampedCoord (extent x i : Int) : Int :=
  let d := abs64 (wrapInt64 (x + i))
  if d ≥ extent then wrapInt64 (extent - 1) else d

/-- The index `dy * width + dx` of the pixel read for position (x, y) and offset
(i, j), as the `size_t` the vector is indexed with. -/
def readIndex (width height x y i j : Int) : Int :=
  let dx := clampedCoord width x i
  let dy := clampedCoord height y j
  toSizeT (wrapInt64 (wrapInt64 (dy * width) + dx))

/-- The index `y * width + x` of the pixel written for position (x, y). -/
def writeIndex (width x y : Int) : Int :=
  toSizeT (wrapInt64 (wrapInt64 (y * width) + x))

end cs.graphics

/-! ## Properties of Node and MathNode -/

namespace csp.demonodeeditor

open csl.nodeeditor

theorem wrapInt32_of_isInt32 (i : Int) (h : IsInt32 i) : wrapInt32 i = i := by
  unfold IsInt32 at h
  unfold wrapInt32
  omega

/-- C1: for a MathNode whose operation is a value of the enumeration's underlying
type, `setData(getData())` succeeds and returns the node unchanged, so the
operation is the same and `getData()` afterwards yields the same blob. -/
theorem MathNode_setData_getData_roundtrip {D : Type} [DoubleOps D] (n : MathNode D)
    (h : IsInt32 n.mOperation) :
    n.setData n.getData = .ok n ∧
      ∀ n1, n.setData n.getData = .ok n1 →
        n1.mOperation = n.mOperation ∧ n1.getData = n.getData := by
  have key : n.setData n.getData = .ok n := by
    simp [MathNode.setData, MathNode.getData, Json.get, Json.ofEnum, Json.toEnum,
      List.lookup, wrapInt32_of_isInt32 _ h]
  refine ⟨key, fun n1 h1 => ?_⟩
  rw [key] at h1
  cases h1
  exact ⟨rfl, rfl⟩

theorem MathNode_setData_getData_roundtrip_witness :
    IsInt32 (Operation.eMultiply) ∧
      (MathNode.setData (⟨⟨4, [], []⟩, Operation.eMultiply⟩ : MathNode Rat)
        (MathNode.getData ⟨⟨4, [], []⟩, Operation.eMultiply⟩)
        = .ok ⟨⟨4, [], []⟩, Operation.eMultiply⟩) :=
  ⟨by decide,
    (MathNode_setData_getData_roundtrip (⟨⟨4, [], []⟩, Operation.eMultiply⟩ : MathNode Rat)
      (by decide)).1⟩

/-- C2: `process()` leaves the node (and so its operation) unchanged and makes exactly
one `writeOutput` call, to the socket "result", with first+second for Add,
first-second for Subtract, first*second for Multiply, first/second for Divide and 0
for every other operation value; an input that was not delivered counts as 0. -/
theorem MathNode_process_writes_result {D : Type} [DoubleOps D] (n : MathNode D) :
    n.process.1 = n ∧
      ∃ v, n.process.2 = [("result", v)] ∧
        (n.mOperation = Operation.eAdd →
          v = DoubleOps.add ((n.mInputs.lookup "first").getD DoubleOps.zero)
            ((n.mInputs.lookup "second").getD DoubleOps.zero)) ∧
        (n.mOperation = Operation.eSubtract →
          v = DoubleOps.sub ((n.mInputs.lookup "first").getD DoubleOps.zero)
            ((n.mInputs.lookup "second").getD DoubleOps.zero)) ∧
        (n.mOperation = Operation.eMultiply →
          v = DoubleOps.mul ((n.mInputs.lookup "first").getD DoubleOps.zero)
            ((n.mInputs.lookup "second").getD DoubleOps.zero)) ∧
        (n.mOperation = Operation.eDivide →
          v = DoubleOps.div ((n.mInputs.lookup "first").getD DoubleOps.zero)
            ((n.mInputs.lookup "second").getD DoubleOps.zero)) ∧
        (n.mOperation ≠ Operation.eAdd → n.mOperation ≠ Operation.eSubtract →
          n.mOperation ≠ Operation.eMultiply → n.mOperation ≠ Operation.eDivide →
          v = DoubleOps.zero) := by
  refine ⟨rfl, _, rfl, ?_, ?_, ?_, ?_, ?_⟩
  · intro h
    simp [h, Node.readInput]
  · intro h
    simp [h, Node.readInput, Operation.eAdd, Operation.eSubtract]
  · intro h
    simp [h, Node.readInput, Operation.eAdd, Operation.eSubtract, Operation.eMultiply]
  · intro h
    simp [h, Node.readInput, Operation.eAdd, Operation.eSubtract, Operation.eMultiply,
      Operation.eDivide]
  · intro h0 h1 h2 h3
    simp [h0, h1, h2, h3]

theorem MathNode_process_writes_result_witness :
    (MathNode.process (⟨⟨1, [("first", 6)], []⟩, 9⟩ : MathNode Rat)).2
      = [("result", DoubleOps.zero)] := by
  obtain ⟨_, v, hv, _, _, _, _, h⟩ :=
    MathNode_process_writes_result (⟨⟨1, [("first", 6)], []⟩, 9⟩ : MathNode Rat)
  rw [hv, h (by decide) (by decide) (by decide) (by decide)]

end csp.demonodeeditor

namespace csl.nodeeditor

/-- C8 (as stated, refuted): a second `setID` does not keep the first id. -/
theorem Node_setID_twice_counterexample :
    (((⟨0, [], []⟩ : Node Rat).setID 1).setID 2).mID = 2 ∧
      (((⟨0, [], []⟩ : Node Rat).setID 1).setID 2).mID ≠ 1 := by
  decide

/-- C8 (amended): `setID` overwrites the id, so after `setID(a)` followed by
`setID(b)` the node's id is `b`; it is still `a` exactly when `a = b`. -/
theorem Node_setID_last_wins {V : Type} (n : Node V) (a b : Nat) :
    (n.setID a).mID = a ∧ ((n.setID a).setID b).mID = b ∧
      (((n.setID a).setID b).mID = a ↔ a = b) := by
  refine ⟨rfl, rfl, ?_⟩
  constructor
  · intro h
    exact h.symm
  · intro h
    exact h.symm

end csl.nodeeditor

namespace csp.demonodeeditor

open csl.nodeeditor

/-- C10: for every entry (value, label) of the selection widget, the message the
widget sends for it is accepted, sets the operation to the enumerator with that
value, and both the process step run by `onMessageFromJS` and a following process
step write to "result" the arithmetic the label names, applied to the cached
inputs: 0 is Add, 1 is Subtract, 2 is Multiply, 3 is Divide. -/
theorem MathNode_menu_value_selects_labelled_operation {D : Type} [DoubleOps D]
    (n : MathNode D) (e : Nat × String) (he : e ∈ menuOptions) :
    ∃ n1 w, n.onMessageFromJS (menuMessage e.1) = .ok (n1, w) ∧
      n1.toNode = n.toNode ∧ n1.mOperation = (e.1 : Int) ∧
      w = [("result", labelled e.2 ((n.mInputs.lookup "first").getD DoubleOps.zero)
        ((n.mInputs.lookup "second").getD DoubleOps.zero))] ∧
      n1.process = (n1, w) := by
  simp only [menuOptions, List.mem_cons, List.mem_singleton, List.not_mem_nil, or_false] at he
  rcases he with rfl | rfl | rfl | rfl <;>
    refine ⟨_, _, rfl, rfl, rfl, ?_, ?_⟩ <;>
    simp [MathNode.process, menuMessage, Json.toEnum, wrapInt32, labelled, Node.readInput,
      Operation.eAdd, Operation.eSubtract, Operation.eMultiply, Operation.eDivide]

theorem MathNode_menu_value_selects_labelled_operation_witness :
    ((3, "Divide") : Nat × String) ∈ menuOptions ∧
      ∃ n1 w, MathNode.onMessageFromJS (⟨⟨1, [("first", 6), ("second", 2)], []⟩, 0⟩ : MathNode Rat)
          (menuMessage 3) = .ok (n1, w) ∧
        w = [("result", DoubleOps.div 6 2)] := by
  refine ⟨by decide, ?_⟩
  obtain ⟨n1, w, h1, _, _, h4, _⟩ :=
    MathNode_menu_value_selects_labelled_operation
      (⟨⟨1, [("first", 6), ("second", 2)], []⟩, 0⟩ : MathNode Rat) (3, "Divide") (by decide)
  refine ⟨n1, w, h1, ?_⟩
  rw [h4]
  simp [labelled, List.lookup]

end csp.demonodeeditor

/-! ## Structural properties of the graph -/

namespace csl.nodeeditor

namespace NodeGraph

variable {D : Type}

theorem mem_ids_filter_ne (nodes : List (Nat × AnyNode D)) (id v : Nat) :
    v ∈ (nodes.filter (fun kv => decide (kv.1 ≠ id))).map Prod.fst ↔
      v ∈ nodes.map Prod.fst ∧ v ≠ id := by
  constructor
  · intro h
    obtain ⟨kv, hkv, rfl⟩ := List.mem_map.mp h
    have hf := List.mem_filter.mp hkv
    exact ⟨List.mem_map.mpr ⟨kv, hf.1, rfl⟩, by simpa using hf.2⟩
  · rintro ⟨h, hv⟩
    obtain ⟨kv, hkv, rfl⟩ := List.mem_map.mp h
    exact List.mem_map.mpr ⟨kv, List.mem_filter.mpr ⟨hkv, by simpa using hv⟩, rfl⟩

theorem mem_ids_addNode (g : NodeGraph D) (id : Nat) (node : AnyNode D) (v : Nat) :
    v ∈ (g.addNode id node).ids ↔ v = id ∨ v ∈ g.ids := by
  have h : (g.addNode id node).ids
      = id :: (g.mNodes.filter (fun kv => decide (kv.1 ≠ id))).map Prod.fst := rfl
  rw [h, List.mem_cons, mem_ids_filter_ne]
  constructor
  · rintro (h | h)
    · exact Or.inl h
    · exact Or.inr h.1
  · rintro (h | h)
    · exact Or.inl h
    · by_cases hv : v = id
      · exact Or.inl hv
      · exact Or.inr ⟨h, hv⟩

theorem filter_ne_cons (id k : Nat) (x : AnyNode D) (rest : List (Nat × AnyNode D)) :
    ((k, x) :: rest).filter (fun kv => decide (kv.1 ≠ id))
      = if k = id then rest.filter (fun kv => decide (kv.1 ≠ id))
        else (k, x) :: rest.filter (fun kv => decide (kv.1 ≠ id)) := by
  by_cases hk : k = id
  · simp [List.filter, hk]
  · simp [List.filter, hk]

theorem lookup_eq_none_of_not_mem (nodes : List (Nat × AnyNode D)) (id : Nat)
    (h : id ∉ nodes.map Prod.fst) : nodes.lookup id = none := by
  induction nodes with
  | nil => rfl
  | cons kv rest ih =>
    obtain ⟨k, x⟩ := kv
    simp only [List.map_cons, List.mem_cons, not_or] at h
    have hk : (id == k) = false := by simpa using h.1
    simp only [List.lookup, hk]
    exact ih h.2

theorem lookup_filter_ne (nodes : List (Nat × AnyNode D)) (id v : Nat) (hv : v ≠ id) :
    (nodes.filter (fun kv => decide (kv.1 ≠ id))).lookup v = nodes.lookup v := by
  induction nodes with
  | nil => rfl
  | cons kv rest ih =>
    obtain ⟨k, x⟩ := kv
    rw [filter_ne_cons]
    by_cases hk : k = id
    · subst hk
      have hvk : (v == k) = false := by simpa using hv
      rw [if_pos rfl, ih]
      simp only [List.lookup, hvk]
    · rw [if_neg hk]
      by_cases hvk : v = k
      · subst hvk
        simp [List.lookup]
      · have hb : (v == k) = false := by simpa using hvk
        simp only [List.lookup, hb]
        exact ih

theorem find?_eq_some_of_unique (l : List Connection) (p : Connection → Bool) (c : Connection)
    (hlen : (l.filter p).length ≤ 1) (hc : c ∈ l) (hp : p c = true) : l.find? p = some c := by
  induction l with
  | nil => cases hc
  | cons a rest ih =>
    by_cases ha : p a = true
    · rw [List.filter_cons_of_pos ha] at hlen
      have hnil : rest.filter p = [] := by
        apply List.eq_nil_of_length_eq_zero
        simp only [List.length_cons] at hlen
        omega
      rcases List.mem_cons.mp hc with h | h
      · subst h
        simp [List.find?, ha]
      · have : c ∈ rest.filter p := List.mem_filter.mpr ⟨h, hp⟩
        rw [hnil] at this
        cases this
    · have ha2 : p a = false := by simpa using ha
      rw [List.filter_cons_of_neg ha] at hlen
      rcases List.mem_cons.mp hc with h | h
      · subst h
        rw [hp] at ha2
        cases ha2
      · simp only [List.find?, ha2]
        exact ih hlen h

theorem length_filter_filter_le (l : List Connection) (p q : Connection → Bool) :
    ((l.filter q).filter p).length ≤ (l.filter p).length := by
  induction l with
  | nil => simp
  | cons a rest ih =>
    by_cases hq : q a = true <;> by_cases hp : p a = true <;>
      simp only [List.filter_cons, hq, hp, ↓reduceIte, List.length_cons, Bool.false_eq_true,
        if_false] <;> omega

theorem exec_ids_of_connection_op (g : NodeGraph D) (f : Nat) (fs : String) (t : Nat)
    (ts : String) : (g.exec (.addConnection f fs t ts)).ids = g.ids := by
  simp only [exec, addConnection]
  split_ifs <;> rfl

theorem inputCount_addConnection (g : NodeGraph D) (hg : SingleProducer g) (f : Nat)
    (fs : String) (t : Nat) (ts : String) (hf : f ∈ g.ids) (ht : t ∈ g.ids) :
    (g.exec (.addConnection f fs t ts)).inputCount t ts = 1 := by
  simp only [exec, addConnection, hf, ht, and_self, if_true]
  by_cases hsome : (g.getInputConnection t ts).isSome = true
  · simp only [hsome, if_true]
    have hle := hg t ts
    obtain ⟨c, hc, hp⟩ := List.find?_isSome.mp hsome
    have hmem : c ∈ g.mConnections.filter
        (fun c => decide (c.mToNode = t ∧ c.mToSocket = ts)) := List.mem_filter.mpr ⟨hc, hp⟩
    have hpos := List.length_pos_of_mem hmem
    unfold inputCount at hle ⊢
    omega
  · simp only [hsome, Bool.false_eq_true, if_false]
    have hnone : g.getInputConnection t ts = none := by
      cases h : g.getInputConnection t ts with
      | none => rfl
      | some c => simp [h] at hsome
    have hnil : g.mConnections.filter
        (fun c => decide (c.mToNode = t ∧ c.mToSocket = ts)) = [] := by
      rw [List.filter_eq_nil_iff]
      intro c hc
      exact List.find?_eq_none.mp hnone c hc
    unfold inputCount
    simp only [List.filter_append, hnil, List.nil_append]
    simp [List.filter]

theorem singleProducer_exec (g : NodeGraph D) (hg : SingleProducer g) (op : GraphOp D) :
    SingleProducer (g.exec op) := by
  intro n s
  cases op with
  | addNode id node => exact hg n s
  | removeNode id =>
    simp only [exec, removeNode]
    split_ifs
    · exact le_trans (length_filter_filter_le _ _ _) (hg n s)
    · exact hg n s
  | removeConnection f fs t ts =>
    simp only [exec, removeConnection]
    split_ifs
    · exact le_trans (length_filter_filter_le _ _ _) (hg n s)
    · exact hg n s
  | addConnection f fs t ts =>
    by_cases hv : f ∈ g.ids ∧ t ∈ g.ids
    · by_cases hts : n = t ∧ s = ts
      · obtain ⟨rfl, rfl⟩ := hts
        exact le_of_eq (inputCount_addConnection g hg f fs n s hv.1 hv.2)
      · simp only [exec, addConnection, hv, and_self, if_true]
        split_ifs
        · exact hg n s
        · have hne : ¬ (t = n ∧ ts = s) := fun h => hts ⟨h.1.symm, h.2.symm⟩
          have := hg n s
          simpa [inputCount, List.filter_append, hne] using this
    · simp only [exec, addConnection, hv, if_false]
      exact hg n s

theorem singleProducer_run (ops : List (GraphOp D)) : SingleProducer (run ops) := by
  unfold run
  induction ops using List.reverseRecOn with
  | nil => intro n s; simp [inputCount, empty]
  | append_singleton ops op ih =>
    rw [List.foldl_append]
    exact singleProducer_exec _ ih op

theorem endpointsPresent_exec (g : NodeGraph D) (hg : EndpointsPresent g) (op : GraphOp D) :
    EndpointsPresent (g.exec op) := by
  cases op with
  | addNode id node =>
    intro c hc
    have := hg c hc
    exact ⟨(mem_ids_addNode g id node _).mpr (Or.inr this.1),
      (mem_ids_addNode g id node _).mpr (Or.inr this.2)⟩
  | removeNode id =>
    simp only [exec, removeNode]
    split_ifs
    · intro c hc
      simp only [List.mem_filter, decide_eq_true_eq] at hc
      have := hg c hc.1
      exact ⟨(mem_ids_filter_ne _ _ _).mpr ⟨this.1, hc.2.1⟩,
        (mem_ids_filter_ne _ _ _).mpr ⟨this.2, hc.2.2⟩⟩
    · exact hg
  | removeConnection f fs t ts =>
    simp only [exec, removeConnection]
    split_ifs
    · intro c hc
      exact hg c (List.mem_filter.mp hc).1
    · exact hg
  | addConnection f fs t ts =>
    simp only [exec, addConnection]
    split_ifs with hv hs
    · exact hg
    · intro c hc
      simp only [List.mem_append, List.mem_singleton] at hc
      rcases hc with hc | rfl
      · exact hg c hc
      · exact hv
    · exact hg

theorem endpointsPresent_run (ops : List (GraphOp D)) : EndpointsPresent (run ops) := by
  unfold run
  induction ops using List.reverseRecOn with
  | nil => intro c hc; simp [empty] at hc
  | append_singleton ops op ih =>
    rw [List.foldl_append]
    exact endpointsPresent_exec _ ih op

end NodeGraph

end csl.nodeeditor

namespace csl.nodeeditor

open NodeGraph

/-- C3: in every graph built from the empty graph by addNode, removeNode,
addConnection and removeConnection calls, at most one connection targets any
(toNode, toSocket) pair, `getInputConnection` returns the connection into a socket
whenever there is one, and two addConnection calls into the same socket of an
existing node, from existing nodes, leave exactly one connection into that socket. -/
theorem NodeGraph_single_producer_per_input {D : Type} (ops : List (GraphOp D)) :
    (∀ n s, (run ops).inputCount n s ≤ 1) ∧
      (∀ c ∈ (run ops).mConnections,
        (run ops).getInputConnection c.mToNode c.mToSocket = some c) ∧
      (∀ a sa b sb n s, a ∈ (run ops).ids → b ∈ (run ops).ids → n ∈ (run ops).ids →
        (((run ops).exec (.addConnection a sa n s)).exec
          (.addConnection b sb n s)).inputCount n s = 1) := by
  have hinv := singleProducer_run ops
  refine ⟨hinv, ?_, ?_⟩
  · intro c hc
    exact find?_eq_some_of_unique _ _ c (hinv c.mToNode c.mToSocket) hc (by simp)
  · intro a sa b sb n s _ hb hn
    have h1 := singleProducer_exec _ hinv (.addConnection a sa n s)
    have hids := exec_ids_of_connection_op (run ops) a sa n s
    exact inputCount_addConnection _ h1 b sb n s (hids ▸ hb) (hids ▸ hn)

theorem NodeGraph_single_producer_per_input_witness :
    (((run [.addNode 1 (.other ⟨0, [], []⟩), .addNode 2 (.other ⟨0, [], []⟩),
        .addNode 3 (.other ⟨0, [], []⟩)] : NodeGraph Rat).exec
          (.addConnection 1 "result" 3 "first")).exec
          (.addConnection 2 "result" 3 "first")).inputCount 3 "first" = 1 :=
  (NodeGraph_single_producer_per_input
    ([.addNode 1 (.other ⟨0, [], []⟩), .addNode 2 (.other ⟨0, [], []⟩),
      .addNode 3 (.other ⟨0, [], []⟩)] : List (GraphOp Rat))).2.2
    1 "result" 2 "result" 3 "first" (by decide) (by decide) (by decide)

/-- C4: in a graph whose connections have their endpoints in the node table, after
`removeNode(id)` no connection has `id` as from-node or to-node,
`getInputConnections(id)` and `getOutputConnections(id, s)` are empty, `id` is not
in the node table, every other node is the same, and the connections are exactly
the former connections that are not incident to `id`. -/
theorem NodeGraph_removeNode_detaches {D : Type} (g : NodeGraph D) (id : Nat)
    (hg : EndpointsPresent g) :
    (∀ c ∈ (g.exec (.removeNode id)).mConnections, c.mFromNode ≠ id ∧ c.mToNode ≠ id) ∧
      (g.exec (.removeNode id)).getInputConnections id = [] ∧
      (∀ s, (g.exec (.removeNode id)).getOutputConnections id s = []) ∧
      id ∉ (g.exec (.removeNode id)).ids ∧
      (g.exec (.removeNode id)).find id = none ∧
      (∀ v, v ≠ id → (g.exec (.removeNode id)).find v = g.find v) ∧
      (g.exec (.removeNode id)).mConnections
        = g.mConnections.filter (fun c => decide (c.mFromNode ≠ id ∧ c.mToNode ≠ id)) := by
  have hconn : (g.exec (.removeNode id)).mConnections
      = g.mConnections.filter (fun c => decide (c.mFromNode ≠ id ∧ c.mToNode ≠ id)) := by
    simp only [exec, removeNode]
    split_ifs with h
    · rfl
    · symm
      rw [List.filter_eq_self]
      intro c hc
      have := hg c hc
      have h1 : c.mFromNode ≠ id := fun e => h (e ▸ this.1)
      have h2 : c.mToNode ≠ id := fun e => h (e ▸ this.2)
      simp [h1, h2]
  have hnot : id ∉ (g.exec (.removeNode id)).ids := by
    simp only [exec, removeNode]
    split_ifs with h
    · intro hmem
      exact ((mem_ids_filter_ne _ _ _).mp hmem).2 rfl
    · exact h
  have hfind : ∀ v, v ≠ id → (g.exec (.removeNode id)).find v = g.find v := by
    intro v hv
    simp only [exec, removeNode]
    split_ifs with h
    · exact lookup_filter_ne _ _ _ hv
    · rfl
  have hinc : ∀ c ∈ (g.exec (.removeNode id)).mConnections,
      c.mFromNode ≠ id ∧ c.mToNode ≠ id := by
    intro c hc
    rw [hconn] at hc
    simpa using (List.mem_filter.mp hc).2
  refine ⟨hinc, ?_, ?_, hnot, lookup_eq_none_of_not_mem _ _ hnot, hfind, hconn⟩
  · unfold getInputConnections
    rw [List.filter_eq_nil_iff]
    intro c hc
    simpa using (hinc c hc).2
  · intro s
    unfold getOutputConnections
    rw [List.filter_eq_nil_iff]
    intro c hc
    have := (hinc c hc).1
    simp [this]

theorem NodeGraph_removeNode_detaches_witness :
    EndpointsPresent (run [.addNode 1 (.other ⟨0, [], []⟩), .addNode 2 (.other ⟨0, [], []⟩),
        .addConnection 1 "result" 2 "first"] : NodeGraph Rat) ∧
      ((run [.addNode 1 (.other ⟨0, [], []⟩), .addNode 2 (.other ⟨0, [], []⟩),
        .addConnection 1 "result" 2 "first"] : NodeGraph Rat).exec
          (.removeNode 1)).getInputConnections 1 = [] :=
  ⟨endpointsPresent_run _,
    (NodeGraph_removeNode_detaches _ 1 (endpointsPresent_run _)).2.1⟩

/-- C5: in every graph built from the empty graph by addNode, removeNode,
addConnection and removeConnection calls, the from-node and the to-node of every
stored connection are in the node table; an addConnection call that names a node
missing from the table is rejected and stores nothing. -/
theorem NodeGraph_connection_endpoints_present {D : Type} (ops : List (GraphOp D)) :
    (∀ c ∈ (run ops).mConnections,
        c.mFromNode ∈ (run ops).ids ∧ c.mToNode ∈ (run ops).ids) ∧
      (∀ f fs t ts, (f ∉ (run ops).ids ∨ t ∉ (run ops).ids) →
        (run ops).addConnection f fs t ts = .error .GraphInvariantError ∧
        (run ops).exec (.addConnection f fs t ts) = run ops) := by
  refine ⟨endpointsPresent_run ops, ?_⟩
  intro f fs t ts h
  have hn : ¬ (f ∈ (run ops).ids ∧ t ∈ (run ops).ids) := by
    rintro ⟨h1, h2⟩
    rcases h with h | h
    · exact h h1
    · exact h h2
  have he : (run ops).addConnection f fs t ts = .error .GraphInvariantError := by
    simp only [addConnection, hn, if_false]
  refine ⟨he, ?_⟩
  simp only [exec, he]

theorem NodeGraph_connection_endpoints_present_witness :
    (run [.addNode 1 (.other ⟨0, [], []⟩)] : NodeGraph Rat).exec
        (.addConnection 1 "result" 2 "first")
      = run [.addNode 1 (.other ⟨0, [], []⟩)] :=
  ((NodeGraph_connection_endpoints_present
    ([.addNode 1 (.other ⟨0, [], []⟩)] : List (GraphOp Rat))).2
    1 "result" 2 "first" (Or.inr (by decide))).2

end csl.nodeeditor

/-! ## Writing an output -/

namespace csl.nodeeditor

open csp.demonodeeditor

namespace NodeGraph

variable {D : Type}

theorem toNode_mapNode (f : Node D → Node D) (n : AnyNode D) :
    (n.mapNode f).toNode = f n.toNode := by
  cases n <;> rfl

theorem lookup_cons_eq {β : Type} (k v : Nat) (x : β) (rest : List (Nat × β)) :
    ((k, x) :: rest).lookup v = if v = k then some x else rest.lookup v := by
  by_cases h : v = k
  · subst h
    simp [List.lookup]
  · have hb : (v == k) = false := by simpa using h
    simp only [List.lookup, hb, h, if_false]

theorem lookup_map_update (nodes : List (Nat × AnyNode D)) (id v : Nat)
    (f : AnyNode D → AnyNode D) :
    (nodes.map (fun kv => if kv.1 = id then (kv.1, f kv.2) else kv)).lookup v
      = (nodes.lookup v).map (fun n => if v = id then f n else n) := by
  induction nodes with
  | nil => rfl
  | cons kv rest ih =>
    obtain ⟨k, x⟩ := kv
    rw [List.map_cons]
    by_cases hid : k = id
    · have hh : (if (k, x).1 = id then ((k, x).1, f (k, x).2) else (k, x)) = (k, f x) := by
        simp [hid]
      rw [hh, lookup_cons_eq, lookup_cons_eq, ih]
      by_cases hvk : v = k
      · simp [hvk, hid]
      · simp [hvk]
    · have hh : (if (k, x).1 = id then ((k, x).1, f (k, x).2) else (k, x)) = (k, x) := by
        simp [hid]
      rw [hh, lookup_cons_eq, lookup_cons_eq, ih]
      by_cases hvk : v = k
      · simp [hvk, hid]
      · simp [hvk]

theorem find_updateNode (g : NodeGraph D) (id v : Nat) (f : Node D → Node D) :
    (g.updateNode id f).find v
      = (g.find v).map (fun n => if v = id then n.mapNode f else n) :=
  lookup_map_update g.mNodes id v (AnyNode.mapNode f)

theorem lookup_setCache_same (cache : List (String × D)) (s : String) (value : D) :
    (setCache cache s value).lookup s = some value := by
  simp [setCache, List.lookup]

theorem lookup_cache_filter_ne (cache : List (String × D)) (s t : String) (h : s ≠ t) :
    (cache.filter (fun kv => decide (kv.1 ≠ t))).lookup s = cache.lookup s := by
  induction cache with
  | nil => rfl
  | cons kv rest ih =>
    obtain ⟨k, x⟩ := kv
    by_cases hk : k = t
    · subst hk
      have hb : (s == k) = false := by simpa using h
      have hf : ((k, x) :: rest).filter (fun kv => decide (kv.1 ≠ k))
          = rest.filter (fun kv => decide (kv.1 ≠ k)) := by
        simp [List.filter]
      rw [hf, ih]
      simp only [List.lookup, hb]
    · have hf : ((k, x) :: rest).filter (fun kv => decide (kv.1 ≠ t))
          = (k, x) :: rest.filter (fun kv => decide (kv.1 ≠ t)) := by
        simp [List.filter, hk]
      rw [hf]
      by_cases hs : s = k
      · subst hs
        simp [List.lookup]
      · have hb : (s == k) = false := by simpa using hs
        simp only [List.lookup, hb]
        exact ih

theorem lookup_setCache_other (cache : List (String × D)) (s t : String) (value : D)
    (h : s ≠ t) : (setCache cache t value).lookup s = cache.lookup s := by
  have hb : (s == t) = false := by simpa using h
  unfold setCache
  simp only [List.lookup, hb]
  exact lookup_cache_filter_ne cache s t h

theorem deliver_mTrace (value : D) (g : NodeGraph D) (c : Connection) :
    (deliver value g c).mTrace = g.mTrace := rfl

theorem deliver_mDirty (value : D) (g : NodeGraph D) (c : Connection) :
    (deliver value g c).mDirty = g.mDirty ++ [c.mToNode] := rfl

theorem deliver_mConnections (value : D) (g : NodeGraph D) (c : Connection) :
    (deliver value g c).mConnections = g.mConnections := rfl

theorem foldl_deliver_fields (value : D) (cs : List Connection) (g : NodeGraph D) :
    (cs.foldl (deliver value) g).mTrace = g.mTrace ∧
      (cs.foldl (deliver value) g).mConnections = g.mConnections ∧
      (cs.foldl (deliver value) g).mFirstPass = g.mFirstPass ∧
      (cs.foldl (deliver value) g).mDirty = g.mDirty ++ cs.map (fun c => c.mToNode) := by
  induction cs generalizing g with
  | nil => simp
  | cons c rest ih =>
    obtain ⟨h1, h2, h3, h4⟩ := ih (deliver value g c)
    simp only [List.foldl_cons, List.map_cons]
    refine ⟨h1, h2, h3, ?_⟩
    rw [h4, deliver_mDirty]
    simp

/-- A delivered value stays readable at its socket while further connections carry
the same value. -/
theorem foldl_deliver_find (value : D) (cs : List Connection) (g : NodeGraph D) (v : Nat)
    (s : String) (node : AnyNode D) (hfind : g.find v = some node)
    (h : node.toNode.mInputs.lookup s = some value ∨
      ∃ c ∈ cs, c.mToNode = v ∧ c.mToSocket = s) :
    ∃ node1, (cs.foldl (deliver value) g).find v = some node1 ∧
      node1.toNode.mInputs.lookup s = some value := by
  induction cs generalizing g node with
  | nil =>
    rcases h with h | ⟨c, hc, _⟩
    · exact ⟨node, hfind, h⟩
    · cases hc
  | cons c rest ih =>
    simp only [List.foldl_cons]
    have hfind1 : (deliver value g c).find v
        = some (if v = c.mToNode then node.mapNode
            (fun n => { n with mInputs := setCache n.mInputs c.mToSocket value })
          else node) := by
      show (g.updateNode c.mToNode _).find v = _
      rw [find_updateNode, hfind]
      rfl
    apply ih _ _ hfind1
    by_cases hhit : c.mToNode = v ∧ c.mToSocket = s
    · left
      obtain ⟨rfl, rfl⟩ := hhit
      simp only [if_true, toNode_mapNode]
      exact lookup_setCache_same _ _ _
    · rcases h with h | ⟨c1, hc1, hv, hs⟩
      · left
        by_cases hv : v = c.mToNode
        · have hs : s ≠ c.mToSocket := fun e => hhit ⟨hv.symm, e.symm⟩
          simp only [hv, if_true, toNode_mapNode]
          rw [lookup_setCache_other _ _ _ _ hs]
          rw [hv] at hfind
          exact h
        · simp only [hv, if_false]
          exact h
      · rcases List.mem_cons.mp hc1 with rfl | hmem
        · exact absurd ⟨hv, hs⟩ hhit
        · right
          exact ⟨c1, hmem, hv, hs⟩

theorem writeOutput_fields (g : NodeGraph D) (id : Nat) (socket : String) (value : D) :
    (g.writeOutput id socket value).mTrace = g.mTrace ∧
      (g.writeOutput id socket value).mConnections = g.mConnections ∧
      (g.writeOutput id socket value).mFirstPass = g.mFirstPass ∧
      (g.writeOutput id socket value).mDirty
        = g.mDirty ++ (g.getOutputConnections id socket).map (fun c => c.mToNode) :=
  foldl_deliver_fields value _ _

theorem foldl_writeOutput_mTrace (id : Nat) (writes : Writes D) (g : NodeGraph D) :
    (writes.foldl (fun acc w => acc.writeOutput id w.1 w.2) g).mTrace = g.mTrace := by
  induction writes generalizing g with
  | nil => rfl
  | cons w rest ih =>
    simp only [List.foldl_cons]
    rw [ih, (writeOutput_fields g id w.1 w.2).1]

theorem commit_mTrace (g : NodeGraph D) (id : Nat) (node : AnyNode D) (writes : Writes D) :
    (g.commit id node writes).mTrace = g.mTrace ++ [id] := by
  unfold commit
  simp only
  rw [foldl_writeOutput_mTrace]
  rfl

end NodeGraph

end csl.nodeeditor

namespace csl.nodeeditor

open csp.demonodeeditor NodeGraph

/-- C9: `writeOutput` runs no process step (the trace of executed steps is unchanged);
it appends the to-node of every connection leaving the socket to the dirty list,
and every such to-node that is in the table afterwards reads the written value at
the connected input socket.  The process step of a MathNode, also when
`onMessageFromJS` triggers it, records only that node in the trace and queues the
nodes connected to "result". -/
theorem NodeGraph_writeOutput_no_reentry {D : Type} [DoubleOps D]
    (behaviour : Node D → Writes D) (g : NodeGraph D) (id : Nat) (socket : String)
    (value : D) :
    (g.writeOutput id socket value).mTrace = g.mTrace ∧
      (g.writeOutput id socket value).mDirty
        = g.mDirty ++ (g.getOutputConnections id socket).map (fun c => c.mToNode) ∧
      (∀ c ∈ g.getOutputConnections id socket,
        c.mToNode ∈ (g.writeOutput id socket value).mDirty ∧
        ∀ node, g.find c.mToNode = some node →
          ∃ node1, (g.writeOutput id socket value).find c.mToNode = some node1 ∧
            ∀ d, node1.toNode.readInput c.mToSocket d = value) ∧
      (∀ n, g.find id = some (.math n) →
        (g.processNode behaviour id).mTrace = g.mTrace ++ [id] ∧
        (g.processNode behaviour id).mDirty
          = g.mDirty ++ (g.getOutputConnections id "result").map (fun c => c.mToNode)) ∧
      (∀ n message g1, g.find id = some (.math n) →
        g.onMessageFromJS id message = .ok g1 →
        g1.mTrace = g.mTrace ++ [id] ∧
        g1.mDirty
          = g.mDirty ++ (g.getOutputConnections id "result").map (fun c => c.mToNode)) := by
  obtain ⟨ht, _, _, hd⟩ := writeOutput_fields g id socket value
  refine ⟨ht, hd, ?_, ?_, ?_⟩
  · intro c hc
    constructor
    · rw [hd]
      exact List.mem_append_right _ (List.mem_map.mpr ⟨c, hc, rfl⟩)
    · intro node hnode
      have hfind1 : (g.updateNode id
          (fun n => { n with mOutputs := setCache n.mOutputs socket value })).find c.mToNode
          = some (if c.mToNode = id then node.mapNode
              (fun n => { n with mOutputs := setCache n.mOutputs socket value })
            else node) := by
        rw [find_updateNode, hnode]
        rfl
      obtain ⟨node1, h1, h2⟩ := foldl_deliver_find value
        (g.getOutputConnections id socket) _ c.mToNode c.mToSocket _ hfind1
        (Or.inr ⟨c, hc, rfl, rfl⟩)
      refine ⟨node1, h1, fun d => ?_⟩
      simp [Node.readInput, h2]
  · intro n hn
    obtain ⟨v, hstep⟩ : ∃ v, g.processNode behaviour id
        = g.commit id (.math n) [("result", v)] := by
      simp only [processNode, hn, AnyNode.process]
      exact ⟨_, rfl⟩
    rw [hstep]
    refine ⟨commit_mTrace _ _ _ _, ?_⟩
    simp only [commit, List.foldl_cons, List.foldl_nil]
    exact (writeOutput_fields _ _ _ _).2.2.2
  · intro n message g1 hn hok
    simp only [onMessageFromJS, hn, MathNode.onMessageFromJS] at hok
    cases hm : message.toEnum with
    | error e => simp [hm] at hok
    | ok op =>
      simp only [hm] at hok
      cases hok
      refine ⟨commit_mTrace _ _ _ _, ?_⟩
      simp only [commit, MathNode.process, List.foldl_cons, List.foldl_nil]
      exact (writeOutput_fields _ _ _ _).2.2.2

theorem NodeGraph_writeOutput_no_reentry_witness :
    ∃ node1, ((run [.addNode 1 (.math ⟨⟨0, [], []⟩, 0⟩), .addNode 2 (.other ⟨0, [], []⟩),
        .addConnection 1 "result" 2 "number"] : NodeGraph Rat).writeOutput 1 "result" 5).find 2
          = some node1 ∧
        ∀ d, node1.toNode.readInput "number" d = 5 :=
  (((NodeGraph_writeOutput_no_reentry (fun _ => [])
    (run [.addNode 1 (.math ⟨⟨0, [], []⟩, 0⟩), .addNode 2 (.other ⟨0, [], []⟩),
        .addConnection 1 "result" 2 "number"] : NodeGraph Rat) 1 "result" 5).2.2.1
    ⟨1, "result", 2, "number"⟩ (by decide)).2 (.other ⟨2, [], []⟩) rfl)

end csl.nodeeditor

/-! ## The nodes a pass reaches -/

namespace csl.nodeeditor

namespace NodeGraph

variable {D : Type}

theorem mem_succStep (cs : List Connection) (S : List Nat) (v : Nat) :
    v ∈ succStep cs S ↔ v ∈ S ∨ ∃ u ∈ S, ConnEdge cs u v := by
  unfold succStep ConnEdge
  simp only [List.mem_append, List.mem_map, List.mem_filter, decide_eq_true_eq]
  constructor
  · rintro (h | ⟨c, ⟨hc, hfrom⟩, rfl⟩)
    · exact Or.inl h
    · exact Or.inr ⟨c.mFromNode, hfrom, c, hc, rfl, rfl⟩
  · rintro (h | ⟨u, hu, c, hc, rfl, rfl⟩)
    · exact Or.inl h
    · exact Or.inr ⟨c, ⟨hc, hu⟩, rfl⟩

theorem succClosed_succStep (cs : List Connection) (S : List Nat) (h : SuccClosed cs S) :
    SuccClosed cs (succStep cs S) := by
  intro c hc hfrom
  rw [mem_succStep] at hfrom ⊢
  rcases hfrom with hfrom | ⟨u, hu, c1, hc1, rfl, hto⟩
  · exact Or.inl (h c hc hfrom)
  · exact Or.inl (h c hc (hto ▸ h c1 hc1 hu))

theorem succClosed_succClosure (cs : List Connection) (n : Nat) (S : List Nat)
    (h : SuccClosed cs S) : SuccClosed cs (succClosure cs n S) := by
  induction n generalizing S with
  | zero => exact h
  | succ n ih => exact ih _ (succClosed_succStep cs S h)

theorem subset_succClosure (cs : List Connection) (n : Nat) (S : List Nat) (v : Nat)
    (h : v ∈ S) : v ∈ succClosure cs n S := by
  induction n generalizing S with
  | zero => exact h
  | succ n ih => exact ih _ ((mem_succStep cs S v).mpr (Or.inl h))

theorem length_filter_lt_of_imp (l : List Connection) (p q : Connection → Bool)
    (hpq : ∀ c ∈ l, p c = true → q c = true) (hex : ∃ c ∈ l, q c = true ∧ p c = false) :
    (l.filter p).length < (l.filter q).length := by
  induction l with
  | nil =>
    obtain ⟨c, hc, _⟩ := hex
    cases hc
  | cons a rest ih =>
    have hmono : (rest.filter p).length ≤ (rest.filter q).length := by
      clear ih hex
      induction rest with
      | nil => simp
      | cons b rest2 ih2 =>
        have hb := hpq b (List.mem_cons_of_mem _ (List.mem_cons_self _ _))
        have hrest : ∀ c ∈ a :: rest2, p c = true → q c = true := by
          intro c hc
          rcases List.mem_cons.mp hc with rfl | h
          · exact hpq c (List.mem_cons_self _ _)
          · exact hpq c (List.mem_cons_of_mem _ (List.mem_cons_of_mem _ h))
        have := ih2 hrest
        by_cases hp : p b = true
        · simp only [List.filter_cons, hp, hb hp, if_true, List.length_cons]
          omega
        · by_cases hq : q b = true
          · simp only [List.filter_cons, hp, hq, if_true, List.length_cons,
              Bool.false_eq_true, if_false]
            omega
          · simp only [List.filter_cons, hp, hq, Bool.false_eq_true, if_false]
            exact this
    obtain ⟨c, hc, hqc, hpc⟩ := hex
    rcases List.mem_cons.mp hc with rfl | hmem
    · simp only [List.filter_cons, hqc, hpc, if_true, Bool.false_eq_true, if_false,
        List.length_cons]
      omega
    · have hlt := ih (fun c hc => hpq c (List.mem_cons_of_mem _ hc)) ⟨c, hmem, hqc, hpc⟩
      have ha := hpq a (List.mem_cons_self _ _)
      by_cases hp : p a = true
      · simp only [List.filter_cons, hp, ha hp, if_true, List.length_cons]
        omega
      · by_cases hq : q a = true
        · simp only [List.filter_cons, hp, hq, if_true, List.length_cons,
            Bool.false_eq_true, if_false]
          omega
        · simp only [List.filter_cons, hp, hq, Bool.false_eq_true, if_false]
          exact hlt

theorem intoCount_succStep (cs : List Connection) (S : List Nat) (h : ¬ SuccClosed cs S) :
    intoCount cs S < intoCount cs (succStep cs S) := by
  unfold SuccClosed at h
  push_neg at h
  obtain ⟨c, hc, hfrom, hto⟩ := h
  apply length_filter_lt_of_imp
  · intro c1 _ h1
    simp only [decide_eq_true_eq] at h1 ⊢
    exact (mem_succStep cs S _).mpr (Or.inl h1)
  · refine ⟨c, hc, ?_, ?_⟩
    · simp only [decide_eq_true_eq]
      exact (mem_succStep cs S _).mpr (Or.inr ⟨c.mFromNode, hfrom, c, hc, rfl, rfl⟩)
    · simpa using hto

theorem succClosure_closed_or_grows (cs : List Connection) (n : Nat) (S : List Nat) :
    SuccClosed cs (succClosure cs n S) ∨ intoCount cs S + n ≤ intoCount cs (succClosure cs n S) := by
  induction n generalizing S with
  | zero => exact Or.inr (le_refl _)
  | succ n ih =>
    by_cases hS : SuccClosed cs S
    · exact Or.inl (succClosed_succClosure cs (n + 1) S hS)
    · rcases ih (succStep cs S) with h | h
      · exact Or.inl h
      · right
        have := intoCount_succStep cs S hS
        show intoCount cs S + (n + 1) ≤ intoCount cs (succClosure cs n (succStep cs S))
        omega

theorem succClosed_of_enough_rounds (cs : List Connection) (S : List Nat) :
    SuccClosed cs (succClosure cs (cs.length + 1) S) := by
  rcases succClosure_closed_or_grows cs (cs.length + 1) S with h | h
  · exact h
  · have hle : intoCount cs (succClosure cs (cs.length + 1) S) ≤ cs.length :=
      List.length_filter_le _ _
    omega

theorem succClosure_sound (cs : List Connection) (R : List Nat) (n : Nat) (S : List Nat)
    (hS : ∀ v ∈ S, ∃ r ∈ R, Relation.ReflTransGen (ConnEdge cs) r v) :
    ∀ v ∈ succClosure cs n S, ∃ r ∈ R, Relation.ReflTransGen (ConnEdge cs) r v := by
  induction n generalizing S with
  | zero => exact hS
  | succ n ih =>
    apply ih
    intro v hv
    rcases (mem_succStep cs S v).mp hv with h | ⟨u, hu, he⟩
    · exact hS v h
    · obtain ⟨r, hr, hru⟩ := hS u hu
      exact ⟨r, hr, hru.tail he⟩

theorem mem_dirtyReachable (g : NodeGraph D) (v : Nat) :
    v ∈ dirtyReachable g ↔ DirtyReachable g v := by
  unfold dirtyReachable DirtyReachable
  rw [List.mem_dedup]
  constructor
  · intro h
    exact succClosure_sound g.mConnections (roots g) _ (roots g)
      (fun r hr => ⟨r, hr, Relation.ReflTransGen.refl⟩) v h
  · rintro ⟨r, hr, hrv⟩
    have hclosed := succClosed_of_enough_rounds g.mConnections (roots g)
    induction hrv with
    | refl => exact subset_succClosure _ _ _ _ hr
    | tail _ he ih =>
      obtain ⟨c, hc, rfl, rfl⟩ := he
      exact hclosed c hc ih

theorem nodup_dirtyReachable (g : NodeGraph D) : (dirtyReachable g).Nodup :=
  List.nodup_dedup _

end NodeGraph

end csl.nodeeditor

/-! ## The order of a pass -/

namespace csl.nodeeditor

namespace NodeGraph

variable {D : Type}

theorem ready_iff (cs : List Connection) (waiting : List Nat) (v : Nat) :
    ready cs waiting v = true ↔ ∀ u ∈ waiting, ¬ ConnEdge cs u v := by
  unfold ready ConnEdge
  simp only [List.all_eq_true, Bool.not_eq_true', Bool.and_eq_false_imp, decide_eq_true_eq,
    decide_eq_false_iff_not]
  constructor
  · intro h u hu hex
    obtain ⟨c, hc, rfl, rfl⟩ := hex
    exact h c hc rfl hu
  · intro h c hc hto hfrom
    exact h c.mFromNode hfrom ⟨c, hc, rfl, hto⟩

theorem topoOrder_perm (cs : List Connection) (fuel : Nat) (waiting order : List Nat)
    (h : topoOrder cs fuel waiting = some order) : order.Perm waiting := by
  induction fuel generalizing waiting order with
  | zero =>
    cases waiting with
    | nil =>
      simp only [topoOrder, Option.some.injEq] at h
      subst h
      exact List.Perm.refl _
    | cons w ws => simp [topoOrder] at h
  | succ fuel ih =>
    cases waiting with
    | nil =>
      simp only [topoOrder, Option.some.injEq] at h
      subst h
      exact List.Perm.refl _
    | cons w ws =>
      simp only [topoOrder] at h
      cases hf : (w :: ws).find? (ready cs (w :: ws)) with
      | none => simp [hf] at h
      | some v =>
        simp only [hf] at h
        cases hr : topoOrder cs fuel ((w :: ws).erase v) with
        | none => simp [hr] at h
        | some rest =>
          simp only [hr, Option.map_some', Option.some.injEq] at h
          subst h
          have hv : v ∈ w :: ws := List.mem_of_find?_eq_some hf
          exact ((ih _ _ hr).cons v).trans (List.perm_cons_erase hv).symm

theorem topoOrder_before (cs : List Connection) (fuel : Nat) (waiting order : List Nat)
    (h : topoOrder cs fuel waiting = some order) :
    ∀ c ∈ cs, c.mFromNode ∈ waiting → c.mToNode ∈ waiting →
      Before c.mFromNode c.mToNode order := by
  induction fuel generalizing waiting order with
  | zero =>
    cases waiting with
    | nil => intro c _ hfrom; cases hfrom
    | cons w ws => simp [topoOrder] at h
  | succ fuel ih =>
    cases waiting with
    | nil => intro c _ hfrom; cases hfrom
    | cons w ws =>
      simp only [topoOrder] at h
      cases hf : (w :: ws).find? (ready cs (w :: ws)) with
      | none => simp [hf] at h
      | some v =>
        simp only [hf] at h
        cases hr : topoOrder cs fuel ((w :: ws).erase v) with
        | none => simp [hr] at h
        | some rest =>
          simp only [hr, Option.map_some', Option.some.injEq] at h
          subst h
          intro c hc hfrom hto
          have hready := (ready_iff cs (w :: ws) v).mp (List.find?_some hf)
          have hto_ne : c.mToNode ≠ v := by
            intro e
            exact hready c.mFromNode hfrom ⟨c, hc, rfl, e⟩
          have hto1 : c.mToNode ∈ (w :: ws).erase v := (List.mem_erase_of_ne hto_ne).mpr hto
          by_cases hfrom_eq : c.mFromNode = v
          · refine ⟨[], rest, ?_, ?_⟩
            · rw [hfrom_eq]
              rfl
            · exact (topoOrder_perm cs fuel _ _ hr).mem_iff.mpr hto1
          · have hfrom1 : c.mFromNode ∈ (w :: ws).erase v :=
              (List.mem_erase_of_ne hfrom_eq).mpr hfrom
            obtain ⟨l1, l2, hl, hmem⟩ := ih _ _ hr c hc hfrom1 hto1
            exact ⟨v :: l1, l2, by rw [hl]; rfl, hmem⟩

theorem exists_ready (cs : List Connection) (waiting : List Nat) (hne : waiting ≠ [])
    (hacyc : ∀ v ∈ waiting, ¬ Relation.TransGen (ConnEdge cs) v v) :
    ∃ v ∈ waiting, ready cs waiting v = true := by
  let r : {x // x ∈ waiting} → {x // x ∈ waiting} → Prop :=
    fun a b => Relation.TransGen (ConnEdge cs) a.1 b.1
  haveI : IsTrans {x // x ∈ waiting} r := ⟨fun a b c hab hbc => Relation.TransGen.trans hab hbc⟩
  haveI : IsIrrefl {x // x ∈ waiting} r := ⟨fun a haa => hacyc a.1 a.2 haa⟩
  have hwf : WellFounded r := Finite.wellFounded_of_trans_of_irrefl r
  obtain ⟨w, hw⟩ := List.exists_mem_of_ne_nil waiting hne
  obtain ⟨m, _, hmin⟩ := hwf.has_min Set.univ ⟨⟨w, hw⟩, Set.mem_univ _⟩
  refine ⟨m.1, m.2, (ready_iff cs waiting m.1).mpr ?_⟩
  intro u hu he
  exact hmin ⟨u, hu⟩ (Set.mem_univ _) (Relation.TransGen.single he)

theorem topoOrder_complete (cs : List Connection) (fuel : Nat) (waiting : List Nat)
    (hfuel : waiting.length ≤ fuel)
    (hacyc : ∀ v ∈ waiting, ¬ Relation.TransGen (ConnEdge cs) v v) :
    ∃ order, topoOrder cs fuel waiting = some order := by
  induction fuel generalizing waiting with
  | zero =>
    cases waiting with
    | nil => exact ⟨[], rfl⟩
    | cons w ws => simp at hfuel
  | succ fuel ih =>
    cases waiting with
    | nil => exact ⟨[], rfl⟩
    | cons w ws =>
      obtain ⟨v, hv, hready⟩ := exists_ready cs (w :: ws) (List.cons_ne_nil _ _) hacyc
      cases hf : (w :: ws).find? (ready cs (w :: ws)) with
      | none =>
        have := List.find?_eq_none.mp hf v hv
        exact absurd hready this
      | some v1 =>
        have hv1 : v1 ∈ w :: ws := List.mem_of_find?_eq_some hf
        have hlen : ((w :: ws).erase v1).length ≤ fuel := by
          rw [List.length_erase_of_mem hv1]
          simp only [List.length_cons] at hfuel ⊢
          omega
        obtain ⟨rest, hrest⟩ := ih ((w :: ws).erase v1) hlen
          (fun x hx => hacyc x (List.mem_of_mem_erase hx))
        exact ⟨v1 :: rest, by simp only [topoOrder, hf, hrest, Option.map_some']⟩

theorem topoOrder_cycle (cs : List Connection) (C : Nat → Prop) (fuel : Nat)
    (waiting : List Nat) (hex : ∃ x, C x) (hsub : ∀ x, C x → x ∈ waiting)
    (hpred : ∀ x, C x → ∃ y, C y ∧ ConnEdge cs y x) :
    topoOrder cs fuel waiting = none := by
  induction fuel generalizing waiting with
  | zero =>
    cases waiting with
    | nil =>
      obtain ⟨x, hx⟩ := hex
      cases hsub x hx
    | cons w ws => rfl
  | succ fuel ih =>
    cases waiting with
    | nil =>
      obtain ⟨x, hx⟩ := hex
      cases hsub x hx
    | cons w ws =>
      simp only [topoOrder]
      cases hf : (w :: ws).find? (ready cs (w :: ws)) with
      | none => rfl
      | some v =>
        have hready := (ready_iff cs (w :: ws) v).mp (List.find?_some hf)
        have hnot : ¬ C v := by
          intro hCv
          obtain ⟨y, hy, he⟩ := hpred v hCv
          exact hready y (hsub y hy) he
        have hsub1 : ∀ x, C x → x ∈ (w :: ws).erase v := by
          intro x hx
          have hne : x ≠ v := fun e => hnot (e ▸ hx)
          exact (List.mem_erase_of_ne hne).mpr (hsub x hx)
        simp only [ih _ hsub1, Option.map_none']

end NodeGraph

end csl.nodeeditor

/-! ## The evaluation pass -/

namespace csl.nodeeditor

open csp.demonodeeditor

namespace NodeGraph

variable {D : Type}

theorem map_fst_update (nodes : List (Nat × AnyNode D)) (id : Nat) (f : AnyNode D → AnyNode D) :
    (nodes.map (fun kv => if kv.1 = id then (kv.1, f kv.2) else kv)).map Prod.fst
      = nodes.map Prod.fst := by
  induction nodes with
  | nil => rfl
  | cons kv rest ih =>
    simp only [List.map_cons, ih, List.cons.injEq, and_true]
    split_ifs <;> rfl

theorem ids_updateNode (g : NodeGraph D) (id : Nat) (f : Node D → Node D) :
    (g.updateNode id f).ids = g.ids :=
  map_fst_update g.mNodes id (AnyNode.mapNode f)

theorem ids_setNode (g : NodeGraph D) (id : Nat) (node : AnyNode D) :
    (g.setNode id node).ids = g.ids :=
  map_fst_update g.mNodes id (fun _ => node)

theorem ids_foldl_deliver (value : D) (cs : List Connection) (g : NodeGraph D) :
    (cs.foldl (deliver value) g).ids = g.ids := by
  induction cs generalizing g with
  | nil => rfl
  | cons c rest ih =>
    simp only [List.foldl_cons]
    rw [ih]
    exact ids_updateNode g _ _

theorem ids_writeOutput (g : NodeGraph D) (id : Nat) (socket : String) (value : D) :
    (g.writeOutput id socket value).ids = g.ids := by
  unfold writeOutput
  simp only
  rw [ids_foldl_deliver]
  exact ids_updateNode g _ _

theorem ids_commit (g : NodeGraph D) (id : Nat) (node : AnyNode D) (writes : Writes D) :
    (g.commit id node writes).ids = g.ids := by
  have h : ∀ (ws : Writes D) (g1 : NodeGraph D),
      (ws.foldl (fun acc w => acc.writeOutput id w.1 w.2) g1).ids = g1.ids := by
    intro ws
    induction ws with
    | nil => intro g1; rfl
    | cons w rest ih =>
      intro g1
      simp only [List.foldl_cons]
      rw [ih, ids_writeOutput]
  show (writes.foldl (fun acc w => acc.writeOutput id w.1 w.2) (g.setNode id node)).ids = g.ids
  rw [h, ids_setNode]

theorem exists_lookup_of_mem (nodes : List (Nat × AnyNode D)) (id : Nat)
    (h : id ∈ nodes.map Prod.fst) : ∃ node, nodes.lookup id = some node := by
  induction nodes with
  | nil => cases h
  | cons kv rest ih =>
    obtain ⟨k, x⟩ := kv
    rw [lookup_cons_eq]
    by_cases hk : id = k
    · exact ⟨x, by rw [if_pos hk]⟩
    · rw [if_neg hk]
      rcases List.mem_cons.mp h with h1 | h1
      · exact absurd h1 hk
      · exact ih h1

theorem exists_find_of_mem_ids (g : NodeGraph D) (id : Nat) (h : id ∈ g.ids) :
    ∃ node, g.find id = some node :=
  exists_lookup_of_mem g.mNodes id h

theorem processNode_ids [DoubleOps D] (behaviour : Node D → Writes D) (g : NodeGraph D)
    (id : Nat) : (g.processNode behaviour id).ids = g.ids := by
  unfold processNode
  cases g.find id with
  | none => rfl
  | some node => exact ids_commit _ _ _ _

theorem processNode_mTrace [DoubleOps D] (behaviour : Node D → Writes D) (g : NodeGraph D)
    (id : Nat) (h : id ∈ g.ids) : (g.processNode behaviour id).mTrace = g.mTrace ++ [id] := by
  obtain ⟨node, hn⟩ := exists_find_of_mem_ids g id h
  unfold processNode
  rw [hn]
  exact commit_mTrace _ _ _ _

theorem foldl_processNode_mTrace [DoubleOps D] (behaviour : Node D → Writes D)
    (order : List Nat) (g : NodeGraph D) (h : ∀ v ∈ order, v ∈ g.ids) :
    (order.foldl (processNode behaviour) g).mTrace = g.mTrace ++ order := by
  induction order generalizing g with
  | nil => simp
  | cons v rest ih =>
    simp only [List.foldl_cons]
    rw [ih, processNode_mTrace behaviour g v (h v (List.mem_cons_self _ _))]
    · simp
    · intro x hx
      rw [processNode_ids]
      exact h x (List.mem_cons_of_mem _ hx)

theorem roots_subset_ids (g : NodeGraph D) (v : Nat) (h : v ∈ roots g) : v ∈ g.ids := by
  unfold roots at h
  split_ifs at h
  · exact h
  · simpa using (List.mem_filter.mp h).2

theorem dirtyReachable_subset_ids (g : NodeGraph D) (hg : EndpointsPresent g) (v : Nat)
    (h : DirtyReachable g v) : v ∈ g.ids := by
  obtain ⟨r, hr, hrv⟩ := h
  induction hrv with
  | refl => exact roots_subset_ids g r hr
  | tail _ he _ =>
    obtain ⟨c, hc, _, rfl⟩ := he
    exact (hg c hc).2

theorem acyclic_of_increasing (g : NodeGraph D)
    (h : ∀ c ∈ g.mConnections, c.mFromNode < c.mToNode) : Acyclic g := by
  have hlt : ∀ a b, Relation.TransGen (Edge g) a b → a < b := by
    intro a b hab
    induction hab with
    | single he =>
      obtain ⟨c, hc, rfl, rfl⟩ := he
      exact h c hc
    | tail _ he ih =>
      obtain ⟨c, hc, rfl, rfl⟩ := he
      exact lt_trans ih (h c hc)
  intro v hv
  exact lt_irrefl v (hlt v v hv)

end NodeGraph

open NodeGraph

/-- C6: on an acyclic graph whose connections have their endpoints in the node
table, one `process()` call succeeds and runs the process steps of exactly the
dirty-reachable nodes, each once (the steps it adds to the trace are a
duplicate-free list of exactly these nodes), and for every connection out of a
node that is run, the producer runs before the consumer. -/
theorem NodeGraph_process_topological_pass {D : Type} [DoubleOps D]
    (behaviour : Node D → Writes D) (g : NodeGraph D) (hacyc : Acyclic g)
    (hg : EndpointsPresent g) :
    ∃ order, schedule g = some order ∧
      (process behaviour g).2 = .ok () ∧
      (process behaviour g).1.mTrace = g.mTrace ++ order ∧
      order.Nodup ∧
      (∀ v, v ∈ order ↔ DirtyReachable g v) ∧
      (∀ v ∈ order, v ∈ g.ids) ∧
      (∀ c ∈ g.mConnections, c.mFromNode ∈ order →
        c.mToNode ∈ order ∧ Before c.mFromNode c.mToNode order) := by
  obtain ⟨order, horder⟩ := topoOrder_complete g.mConnections (dirtyReachable g).length
    (dirtyReachable g) (le_refl _) (fun v _ => hacyc v)
  have hperm := topoOrder_perm _ _ _ _ horder
  have hmem : ∀ v, v ∈ order ↔ DirtyReachable g v := fun v =>
    hperm.mem_iff.trans (mem_dirtyReachable g v)
  have hids : ∀ v ∈ order, v ∈ g.ids := fun v hv =>
    dirtyReachable_subset_ids g hg v ((hmem v).mp hv)
  have hsched : schedule g = some order := horder
  refine ⟨order, hsched, ?_, ?_, hperm.nodup_iff.mpr (nodup_dirtyReachable g), hmem, hids, ?_⟩
  · simp only [process, hsched]
  · simp only [process, hsched]
    exact foldl_processNode_mTrace behaviour order _ hids
  · intro c hc hfrom
    have hto : c.mToNode ∈ order := by
      rw [hmem] at hfrom ⊢
      obtain ⟨r, hr, hrv⟩ := hfrom
      exact ⟨r, hr, hrv.tail ⟨c, hc, rfl, rfl⟩⟩
    exact ⟨hto, topoOrder_before _ _ _ _ horder c hc (hperm.mem_iff.mp hfrom)
      (hperm.mem_iff.mp hto)⟩

theorem NodeGraph_process_topological_pass_witness :
    Acyclic (run [.addNode 3 (.math ⟨⟨0, [], []⟩, 0⟩), .addNode 1 (.math ⟨⟨0, [], []⟩, 0⟩),
        .addNode 2 (.math ⟨⟨0, [], []⟩, 0⟩), .addConnection 1 "result" 2 "first",
        .addConnection 2 "result" 3 "first"] : NodeGraph Rat) ∧
      ∃ order, schedule (run [.addNode 3 (.math ⟨⟨0, [], []⟩, 0⟩),
          .addNode 1 (.math ⟨⟨0, [], []⟩, 0⟩), .addNode 2 (.math ⟨⟨0, [], []⟩, 0⟩),
          .addConnection 1 "result" 2 "first",
          .addConnection 2 "result" 3 "first"] : NodeGraph Rat) = some order ∧
        order.Nodup ∧ Before 1 2 order ∧ Before 2 3 order := by
  have hacyc : Acyclic (run [.addNode 3 (.math ⟨⟨0, [], []⟩, 0⟩),
      .addNode 1 (.math ⟨⟨0, [], []⟩, 0⟩), .addNode 2 (.math ⟨⟨0, [], []⟩, 0⟩),
      .addConnection 1 "result" 2 "first",
      .addConnection 2 "result" 3 "first"] : NodeGraph Rat) :=
    acyclic_of_increasing _ (by decide)
  refine ⟨hacyc, ?_⟩
  obtain ⟨order, h1, _, _, h4, h5, _, h7⟩ :=
    NodeGraph_process_topological_pass (fun _ => []) _ hacyc (endpointsPresent_run _)
  have h12 : (1 : Nat) ∈ order := (h5 1).mpr ⟨1, by decide, Relation.ReflTransGen.refl⟩
  have hb12 := h7 ⟨1, "result", 2, "first"⟩ (by decide) h12
  have hb23 := h7 ⟨2, "result", 3, "first"⟩ (by decide) hb12.1
  exact ⟨order, h1, h4, hb12.2, hb23.2⟩

/-- C7: when a dirty-reachable node lies on a cycle of connections, `process()`
reports GraphCycleError and returns the graph as it was: node table, connections,
socket caches, dirty list and trace are unchanged, so no output was written and no
process step ran. -/
theorem NodeGraph_process_cycle_error {D : Type} [DoubleOps D]
    (behaviour : Node D → Writes D) (g : NodeGraph D)
    (hcyc : ∃ v, DirtyReachable g v ∧ Relation.TransGen (Edge g) v v) :
    process behaviour g = (g, .error .GraphCycleError) := by
  have hnone : schedule g = none := by
    apply topoOrder_cycle g.mConnections
      (fun x => DirtyReachable g x ∧ Relation.TransGen (Edge g) x x)
    · exact hcyc
    · intro x hx
      exact (mem_dirtyReachable g x).mpr hx.1
    · rintro x ⟨⟨r, hr, hrx⟩, hxx⟩
      obtain ⟨y, hxy, hyx⟩ := Relation.TransGen.tail'_iff.mp hxx
      exact ⟨y, ⟨⟨r, hr, hrx.trans hxy⟩, Relation.TransGen.head' hyx hxy⟩, hyx⟩
  simp only [process, hnone]

theorem NodeGraph_process_cycle_error_witness :
    process (fun _ => [])
        (run [.addNode 1 (.math ⟨⟨0, [], []⟩, 0⟩), .addNode 2 (.math ⟨⟨0, [], []⟩, 0⟩),
          .addConnection 1 "result" 2 "first",
          .addConnection 2 "result" 1 "first"] : NodeGraph Rat)
      = (run [.addNode 1 (.math ⟨⟨0, [], []⟩, 0⟩), .addNode 2 (.math ⟨⟨0, [], []⟩, 0⟩),
          .addConnection 1 "result" 2 "first",
          .addConnection 2 "result" 1 "first"], .error .GraphCycleError) :=
  NodeGraph_process_cycle_error _ _
    ⟨1, ⟨1, by decide, Relation.ReflTransGen.refl⟩,
      Relation.TransGen.tail
        (Relation.TransGen.single ⟨⟨1, "result", 2, "first"⟩, by decide, rfl, rfl⟩)
        ⟨⟨2, "result", 1, "first"⟩, by decide, rfl, rfl⟩⟩

end csl.nodeeditor

/-! ## Input connections, the AddNode event, messages of MathNode and DisplayNode -/

namespace csl.nodeeditor

open csp.demonodeeditor NodeGraph

/-- C11: `getInputConnections(id)` returns exactly the stored connections whose
to-node is `id`: every returned connection is stored and targets `id`, every stored
connection targeting `id` is returned, as often as it is stored and in the stored
order; in a graph built by the four mutating calls that is exactly once. -/
theorem NodeGraph_getInputConnections_exact {D : Type} (g : NodeGraph D) (id : Nat) :
    (∀ c ∈ g.getInputConnections id, c ∈ g.mConnections ∧ c.mToNode = id) ∧
      (∀ c ∈ g.mConnections, c.mToNode = id → c ∈ g.getInputConnections id) ∧
      (∀ c, c.mToNode = id →
        (g.getInputConnections id).count c = g.mConnections.count c) ∧
      (g.getInputConnections id).Sublist g.mConnections ∧
      (∀ ops : List (GraphOp D), ∀ c ∈ (run ops).mConnections, c.mToNode = id →
        ((run ops).getInputConnections id).count c = 1) := by
  have hcount : ∀ (h : NodeGraph D) (c : Connection), c.mToNode = id →
      (h.getInputConnections id).count c = h.mConnections.count c := by
    intro h c hc
    unfold getInputConnections
    exact List.count_filter (by simpa using hc)
  refine ⟨?_, ?_, hcount g, List.filter_sublist _, ?_⟩
  · intro c hc
    have := List.mem_filter.mp hc
    exact ⟨this.1, by simpa using this.2⟩
  · intro c hc hto
    exact List.mem_filter.mpr ⟨hc, by simpa using hto⟩
  · intro ops c hc hto
    rw [hcount (run ops) c hto]
    have hle := singleProducer_run ops c.mToNode c.mToSocket
    have hpos : 0 < (run ops).mConnections.count c := List.count_pos_iff.mpr hc
    have hsub : (run ops).mConnections.count c ≤ (run ops).inputCount c.mToNode c.mToSocket := by
      unfold inputCount
      have h2 : ((run ops).mConnections.filter (fun c1 : Connection =>
          decide (c1.mToNode = c.mToNode ∧ c1.mToSocket = c.mToSocket))).count c
          = (run ops).mConnections.count c := List.count_filter (by simp)
      rw [← h2]
      exact List.count_le_length _ _
    omega

theorem NodeGraph_getInputConnections_exact_witness :
    ((run [.addNode 1 (.other ⟨0, [], []⟩), .addNode 2 (.other ⟨0, [], []⟩),
        .addConnection 1 "result" 2 "first",
        .addConnection 1 "result" 2 "second"] : NodeGraph Rat).getInputConnections 2).count
          ⟨1, "result", 2, "second"⟩ = 1 :=
  (NodeGraph_getInputConnections_exact (NodeGraph.empty : NodeGraph Rat) 2).2.2.2.2
    [.addNode 1 (.other ⟨0, [], []⟩), .addNode 2 (.other ⟨0, [], []⟩),
      .addConnection 1 "result" 2 "first", .addConnection 1 "result" 2 "second"]
    ⟨1, "result", 2, "second"⟩ (by decide) rfl

theorem lookup_eq_none_of_not_mem_keys {β : Type} (l : List (String × β)) (key : String)
    (h : key ∉ l.map Prod.fst) : l.lookup key = none := by
  induction l with
  | nil => rfl
  | cons kv rest ih =>
    obtain ⟨k, x⟩ := kv
    simp only [List.map_cons, List.mem_cons, not_or] at h
    have hk : (key == k) = false := by simpa using h.1
    simp only [List.lookup, hk]
    exact ih h.2

/-- C12: an AddNode event whose type name is not registered in the factory is
answered with ProtocolError and leaves the editor, and with it the graph, as it
was: the same nodes (so the same number of nodes) and the same connections. -/
theorem NodeEditor_addNode_unknown_type {D : Type} [DoubleOps D] (e : NodeEditor D)
    (typeName : String) (data : Option (Json D))
    (h : typeName ∉ e.mFactory.mCreators.map Prod.fst) :
    (e.handleAddNodeEvent typeName data).2 = .error .ProtocolError ∧
      (e.handleAddNodeEvent typeName data).1 = e ∧
      (e.handleAddNodeEvent typeName data).1.mGraph.mNodes.length = e.mGraph.mNodes.length ∧
      (e.handleAddNodeEvent typeName data).1.mGraph.mConnections = e.mGraph.mConnections := by
  have hc : e.mFactory.create typeName = .error .UnknownType := by
    simp only [NodeFactory.create, lookup_eq_none_of_not_mem_keys _ _ h]
  have he : e.handleAddNodeEvent typeName data = (e, .error .ProtocolError) := by
    simp only [NodeEditor.handleAddNodeEvent, hc]
  rw [he]
  exact ⟨rfl, rfl, rfl, rfl⟩

theorem NodeEditor_addNode_unknown_type_witness :
    "Plot" ∉ [("Math", (AnyNode.math ⟨⟨0, [], []⟩, 0⟩ : AnyNode Rat))].map Prod.fst ∧
      (NodeEditor.handleAddNodeEvent
        (⟨⟨[("Math", .math ⟨⟨0, [], []⟩, 0⟩)]⟩, NodeGraph.empty, 1⟩ : NodeEditor Rat)
        "Plot" none).2 = .error .ProtocolError :=
  ⟨by decide,
    (NodeEditor_addNode_unknown_type
      (⟨⟨[("Math", .math ⟨⟨0, [], []⟩, 0⟩)]⟩, NodeGraph.empty, 1⟩ : NodeEditor Rat)
      "Plot" none (by decide)).1⟩

end csl.nodeeditor

namespace csp.demonodeeditor

open csl.nodeeditor

/-- C13: for a message that carries an operation value `m` (a JSON integer, signed or
unsigned, that is a value of `int`), `onMessageFromJS` succeeds, leaves the base
part of the node alone, sets the operation to `m` and writes "result" exactly once,
with first+second when `m` is Add, first-second when it is Subtract, first*second
when it is Multiply, first/second when it is Divide and 0 for every other `m`,
first and second being the cached inputs (0 when none was delivered); this is the
write of a process step of the node with the new operation, and `getData()`
afterwards reports the operation `m`. -/
theorem MathNode_onMessageFromJS_sets_operation {D : Type} [DoubleOps D] (n : MathNode D)
    (m : Int) (hm : IsInt32 m) :
    ∃ n1 v, n.onMessageFromJS (.number_integer m) = .ok (n1, [("result", v)]) ∧
      (0 ≤ m → n.onMessageFromJS (.number_unsigned m.toNat) = .ok (n1, [("result", v)])) ∧
      n1.toNode = n.toNode ∧ n1.mOperation = m ∧
      (m = Operation.eAdd →
        v = DoubleOps.add ((n.mInputs.lookup "first").getD DoubleOps.zero)
          ((n.mInputs.lookup "second").getD DoubleOps.zero)) ∧
      (m = Operation.eSubtract →
        v = DoubleOps.sub ((n.mInputs.lookup "first").getD DoubleOps.zero)
          ((n.mInputs.lookup "second").getD DoubleOps.zero)) ∧
      (m = Operation.eMultiply →
        v = DoubleOps.mul ((n.mInputs.lookup "first").getD DoubleOps.zero)
          ((n.mInputs.lookup "second").getD DoubleOps.zero)) ∧
      (m = Operation.eDivide →
        v = DoubleOps.div ((n.mInputs.lookup "first").getD DoubleOps.zero)
          ((n.mInputs.lookup "second").getD DoubleOps.zero)) ∧
      (m ≠ Operation.eAdd → m ≠ Operation.eSubtract → m ≠ Operation.eMultiply →
        m ≠ Operation.eDivide → v = DoubleOps.zero) ∧
      n1.process = (n1, [("result", v)]) ∧
      n1.getData = .object [("operation", .number_integer m)] := by
  have hconv : (Json.number_integer m : Json D).toEnum = .ok m := by
    simp only [Json.toEnum, wrapInt32_of_isInt32 m hm]
  have hconvU : 0 ≤ m → (Json.number_unsigned m.toNat : Json D).toEnum = .ok m := by
    intro h0
    have hcast : ((m.toNat : Nat) : Int) = m := Int.toNat_of_nonneg h0
    simp only [Json.toEnum, hcast, wrapInt32_of_isInt32 m hm]
  obtain ⟨v, hv⟩ : ∃ v, (MathNode.process (⟨n.toNode, m⟩ : MathNode D))
      = (⟨n.toNode, m⟩, [("result", v)]) := ⟨_, rfl⟩
  have hval : v = (if m = Operation.eAdd then
        DoubleOps.add ((n.mInputs.lookup "first").getD DoubleOps.zero)
          ((n.mInputs.lookup "second").getD DoubleOps.zero)
      else if m = Operation.eSubtract then
        DoubleOps.sub ((n.mInputs.lookup "first").getD DoubleOps.zero)
          ((n.mInputs.lookup "second").getD DoubleOps.zero)
      else if m = Operation.eMultiply then
        DoubleOps.mul ((n.mInputs.lookup "first").getD DoubleOps.zero)
          ((n.mInputs.lookup "second").getD DoubleOps.zero)
      else if m = Operation.eDivide then
        DoubleOps.div ((n.mInputs.lookup "first").getD DoubleOps.zero)
          ((n.mInputs.lookup "second").getD DoubleOps.zero)
      else DoubleOps.zero) := by
    have h2 := congrArg Prod.snd hv
    simp only [MathNode.process, Node.readInput, List.cons.injEq, Prod.mk.injEq, true_and,
      and_true] at h2
    exact h2.symm
  refine ⟨⟨n.toNode, m⟩, v, ?_, ?_, rfl, rfl, ?_, ?_, ?_, ?_, ?_, hv, rfl⟩
  · simp only [MathNode.onMessageFromJS, hconv]
    exact congrArg Except.ok hv
  · intro h0
    simp only [MathNode.onMessageFromJS, hconvU h0]
    exact congrArg Except.ok hv
  · intro h
    rw [hval, if_pos h]
  · intro h
    rw [hval]
    simp [h, Operation.eAdd, Operation.eSubtract]
  · intro h
    rw [hval]
    simp [h, Operation.eAdd, Operation.eSubtract, Operation.eMultiply]
  · intro h
    rw [hval]
    simp [h, Operation.eAdd, Operation.eSubtract, Operation.eMultiply, Operation.eDivide]
  · intro h0 h1 h2 h3
    rw [hval, if_neg h0, if_neg h1, if_neg h2, if_neg h3]

theorem MathNode_onMessageFromJS_sets_operation_witness :
    IsInt32 2 ∧
      ∃ n1, MathNode.onMessageFromJS (⟨⟨1, [("first", 6), ("second", 2)], []⟩, 0⟩ : MathNode Rat)
          (.number_integer 2) = .ok (n1, [("result", DoubleOps.mul 6 2)]) ∧
        n1.mOperation = 2 ∧
        n1.getData = .object [("operation", .number_integer 2)] := by
  refine ⟨by decide, ?_⟩
  obtain ⟨n1, v, h1, _, _, h4, _, _, hmul, _, _, _, h7⟩ :=
    MathNode_onMessageFromJS_sets_operation
      (⟨⟨1, [("first", 6), ("second", 2)], []⟩, 0⟩ : MathNode Rat) 2 (by decide)
  have hv : v = DoubleOps.mul 6 2 := by
    rw [hmul rfl]
    simp [List.lookup]
  rw [hv] at h1
  exact ⟨n1, h1, h4, h7⟩

/-- C14: `DisplayNode::process` succeeds, leaves the node alone, writes no output
socket and sends exactly one message, the object whose only field "value" is the
number cached at the input "number", or 0 when none was delivered. -/
theorem DisplayNode_process_sends_value {D : Type} [DoubleOps D] (n : DisplayNode D) :
    n.process = .ok (n, { writes := [], messages :=
        [.object [("value", .number_float ((n.mInputs.lookup "number").getD DoubleOps.zero))]] }) ∧
      (n.mInputs.lookup "number" = none →
        n.process = .ok (n, { writes := [], messages :=
          [.object [("value", .number_float DoubleOps.zero)]] })) := by
  have h : n.process = .ok (n, { writes := [], messages :=
      [.object [("value", .number_float ((n.mInputs.lookup "number").getD DoubleOps.zero))]] }) :=
    rfl
  refine ⟨h, fun hnone => ?_⟩
  rw [h, hnone]
  rfl

theorem DisplayNode_process_sends_value_witness :
    (DisplayNode.process (⟨⟨3, [("first", 6)], []⟩⟩ : DisplayNode Rat))
      = .ok (⟨⟨3, [("first", 6)], []⟩⟩, { writes := [], messages :=
          [.object [("value", .number_float DoubleOps.zero)]] }) :=
  (DisplayNode_process_sends_value (⟨⟨3, [("first", 6)], []⟩⟩ : DisplayNode Rat)).2 rfl

end csp.demonodeeditor

/-! ## The cache file of WebMapTextureLoader -/

namespace csp.simplewmsbodies

theorem write_at_end (ss : StringStream) (s : CppString) (h : ss.putPos = ss.buffer.length) :
    ss.write s = { buffer := ss.buffer ++ s, putPos := (ss.buffer ++ s).length } := by
  unfold StringStream.write
  rw [h, List.take_length, List.drop_eq_nil_of_le (by omega), List.append_nil,
    List.length_append]

theorem write_over_same (s : CppString) :
    (StringStream.ofString s).write s = { buffer := s, putPos := s.length } := by
  unfold StringStream.write StringStream.ofString
  simp

theorem replaceChar_twice (time : CppString) :
    replaceChar (replaceChar time '/' '-') ':' '-'
      = time.map (fun c => if c = '/' ∨ c = ':' then '-' else c) := by
  unfold replaceChar
  rw [List.map_map]
  apply List.map_congr_left
  intro c _
  by_cases h1 : c = '/'
  · subst h1
    decide
  · by_cases h2 : c = ':'
    · subst h2
      decide
    · simp [h1, h2]

theorem cacheDir_eq (time requestStr layer mapCache : CppString) :
    (loadTexturePaths time requestStr layer mapCache).cacheDir
      = if time ≠ [] then
          mapCache ++ ['/'] ++ layerFixed layer ++ ['/'] ++ time.takeWhile (fun c => c ≠ '-')
            ++ ['/']
        else mapCache ++ ['/'] ++ layerFixed layer ++ ['/'] := by
  unfold loadTexturePaths
  by_cases ht : time = []
  · simp [ht, write_at_end, StringStream.empty, StringStream.str]
  · simp [ht, write_at_end, StringStream.empty, StringStream.str, getline]

theorem cacheFile_eq (time requestStr layer mapCache : CppString) :
    (loadTexturePaths time requestStr layer mapCache).cacheFile
      = (loadTexturePaths time requestStr layer mapCache).cacheDir
        ++ (if time ≠ [] then time.map (fun c => if c = '/' ∨ c = ':' then '-' else c)
            else layerFixed layer)
        ++ ".png".toList := by
  unfold loadTexturePaths
  by_cases ht : time = []
  · simp [ht, write_at_end, write_over_same, StringStream.empty, StringStream.str]
  · simp [ht, write_at_end, write_over_same, StringStream.empty, StringStream.str,
      replaceChar_twice]

end csp.simplewmsbodies

namespace csp.simplewmsbodies

/-- C15: the cache file `loadTexture` computes is the cache directory followed once by
the file name: for non-empty `time` it is mapCache + "/" + L + "/" + Y + "/" + T +
".png" with L the sanitised layer, Y the part of `time` before its first '-' and T
`time` with every '/' and ':' replaced by '-'; for empty `time` it is mapCache +
"/" + L + "/" + L + ".png"; it is the same for every `requestStr`. -/
theorem loadTexture_cache_file_path (time requestStr layer mapCache : CppString) :
    (time ≠ [] →
        (loadTexturePaths time requestStr layer mapCache).cacheFile
          = mapCache ++ "/".toList ++ layerFixed layer ++ "/".toList
            ++ time.takeWhile (fun c => c ≠ '-') ++ "/".toList
            ++ time.map (fun c => if c = '/' ∨ c = ':' then '-' else c) ++ ".png".toList) ∧
      (time = [] →
        (loadTexturePaths time requestStr layer mapCache).cacheFile
          = mapCache ++ "/".toList ++ layerFixed layer ++ "/".toList
            ++ layerFixed layer ++ ".png".toList) ∧
      (∀ requestStr2,
        (loadTexturePaths time requestStr2 layer mapCache).cacheFile
          = (loadTexturePaths time requestStr layer mapCache).cacheFile) := by
  have hslash : "/".toList = ['/'] := rfl
  refine ⟨fun ht => ?_, fun ht => ?_, fun requestStr2 => ?_⟩
  · rw [cacheFile_eq, cacheDir_eq, if_pos ht, if_pos ht, hslash]
  · have ht2 : ¬ time ≠ [] := fun h => h ht
    rw [cacheFile_eq, cacheDir_eq, if_neg ht2, if_neg ht2, hslash]
  · rw [cacheFile_eq, cacheDir_eq, cacheFile_eq, cacheDir_eq]

theorem loadTexture_cache_file_path_witness :
    "2020-01-02T10:30/P1D".toList ≠ [] ∧
      (loadTexturePaths "2020-01-02T10:30/P1D".toList "http://server/wms?".toList
        "a.b:c".toList "cache".toList).cacheFile
        = "cache/a_b_c/2020/2020-01-02T10-30-P1D.png".toList := by
  refine ⟨by decide, ?_⟩
  rw [(loadTexture_cache_file_path "2020-01-02T10:30/P1D".toList "http://server/wms?".toList
    "a.b:c".toList "cache".toList).1 (by decide)]
  decide

theorem layerFixed_char_not_forbidden (c : Char) :
    (if c ∈ forbiddenChars then '_' else c) ∉ forbiddenChars := by
  by_cases h : c ∈ forbiddenChars
  · rw [if_pos h]
    decide
  · rw [if_neg h]
    exact h

/-- C16: the sanitised layer name has the length of the input, contains none of the
characters * . , : [ | ] ", has '_' exactly at the positions where the input has
one of those characters or '_', equals the input at every other position, and is
unchanged by sanitising it again. -/
theorem layerFixed_sanitises (layer : CppString) :
    (layerFixed layer).length = layer.length ∧
      (∀ c ∈ layerFixed layer, c ∉ forbiddenChars) ∧
      (∀ c ∈ layerFixed layer, c ∉ ['*', '.', ',', ':', '[', '|', ']', '"']) ∧
      (∀ (i : Nat) (c : Char), layer[i]? = some c →
        ((layerFixed layer)[i]? = some '_' ↔ (c ∈ forbiddenChars ∨ c = '_'))) ∧
      (∀ (i : Nat) (c : Char), layer[i]? = some c → c ∉ forbiddenChars → (layerFixed layer)[i]? = some c) ∧
      layerFixed (layerFixed layer) = layerFixed layer := by
  have hmem : ∀ c ∈ layerFixed layer, c ∉ forbiddenChars := by
    intro c hc
    obtain ⟨c0, _, rfl⟩ := List.mem_map.mp hc
    exact layerFixed_char_not_forbidden c0
  have hget : ∀ (i : Nat) (c : Char), layer[i]? = some c →
      (layerFixed layer)[i]? = some (if c ∈ forbiddenChars then '_' else c) := by
    intro i c hc
    unfold layerFixed
    rw [List.getElem?_map, hc]
    rfl
  refine ⟨List.length_map _ _, hmem, hmem, ?_, ?_, ?_⟩
  · intro i c hc
    rw [hget i c hc]
    by_cases h : c ∈ forbiddenChars
    · simp [h]
    · simp [h]
  · intro i c hc h
    rw [hget i c hc, if_neg h]
  · unfold layerFixed
    rw [List.map_map]
    apply List.map_congr_left
    intro c _
    have := layerFixed_char_not_forbidden c
    simp only [Function.comp_apply, this, if_false]

theorem layerFixed_sanitises_witness :
    "a.b[1]".toList[1]? = some '.' ∧ (layerFixed "a.b[1]".toList)[1]? = some '_' :=
  ⟨by decide,
    ((layerFixed_sanitises "a.b[1]".toList).2.2.2.1 1 '.' (by decide)).mpr
      (Or.inl (by decide))⟩

end csp.simplewmsbodies

/-! ## Indices of the Gaussian blur -/

namespace cs.graphics

theorem wrapInt64_of_range (v : Int) (h1 : -9223372036854775808 ≤ v)
    (h2 : v < 9223372036854775808) : wrapInt64 v = v := by
  unfold wrapInt64
  omega

theorem toSizeT_of_range (v : Int) (h1 : 0 ≤ v) (h2 : v < 18446744073709551616) :
    toSizeT v = v := by
  unfold toSizeT
  omega

theorem clampedCoord_range (extent x i : Int) (radius : Nat)
    (hext : extent + radius ≤ 9223372036854775808)
    (hx : 0 ≤ x ∧ x < extent) (hi : -(radius : Int) ≤ i ∧ i ≤ radius) :
    0 ≤ clampedCoord extent x i ∧ clampedCoord extent x i < extent := by
  obtain ⟨hx0, hx1⟩ := hx
  obtain ⟨hi0, hi1⟩ := hi
  have hsum : wrapInt64 (x + i) = x + i := wrapInt64_of_range _ (by omega) (by omega)
  have hext1 : wrapInt64 (extent - 1) = extent - 1 := wrapInt64_of_range _ (by omega) (by omega)
  unfold clampedCoord
  simp only [hsum, hext1]
  have habs : 0 ≤ abs64 (x + i) := by
    unfold abs64
    split_ifs with hneg
    · rw [wrapInt64_of_range _ (by omega) (by omega)]
      omega
    · omega
  split_ifs with hge
  · omega
  · omega

/-- C17: for an image of exactly width*height pixels (a vector size, so below 2^63)
and a filter radius with width + R and height + R within the range of `int64_t`,
every pixel position with 0 <= x < width, 0 <= y < height and every offset pair
with -R <= i, j <= R give clamped coordinates 0 <= dx < width and 0 <= dy < height,
the read index is dy*width+dx and lies in [0, width*height), and so does the write
index y*width+x; nothing is assumed about R compared with width or height. -/
theorem guassianBlur_indices_in_range (radius imageSize : Nat) (width height x y i j : Int)
    (hsize : width * height = imageSize) (hfit : (imageSize : Int) < 9223372036854775808)
    (hw : width + radius ≤ 9223372036854775808) (hh : height + radius ≤ 9223372036854775808)
    (hx : 0 ≤ x ∧ x < width) (hy : 0 ≤ y ∧ y < height)
    (hi : -(radius : Int) ≤ i ∧ i ≤ radius) (hj : -(radius : Int) ≤ j ∧ j ≤ radius) :
    (0 ≤ clampedCoord width x i ∧ clampedCoord width x i < width) ∧
      (0 ≤ clampedCoord height y j ∧ clampedCoord height y j < height) ∧
      readIndex width height x y i j
        = clampedCoord height y j * width + clampedCoord width x i ∧
      (0 ≤ readIndex width height x y i j ∧ readIndex width height x y i j < imageSize) ∧
      writeIndex width x y = y * width + x ∧
      (0 ≤ writeIndex width x y ∧ writeIndex width x y < imageSize) := by
  have hdx := clampedCoord_range width x i radius hw hx hi
  have hdy := clampedCoord_range height y j radius hh hy hj
  have hidx : ∀ a b : Int, 0 ≤ a → a < width → 0 ≤ b → b < height →
      toSizeT (wrapInt64 (wrapInt64 (b * width) + a)) = b * width + a ∧
        0 ≤ b * width + a ∧ b * width + a < imageSize := by
    intro a b ha0 ha1 hb0 hb1
    have hwpos : 0 < width := by omega
    have hprod0 : 0 ≤ b * width := mul_nonneg hb0 (le_of_lt hwpos)
    have hprod1 : b * width + width ≤ width * height := by nlinarith
    have hlt : b * width + a < imageSize := by
      rw [← hsize]
      omega
    rw [wrapInt64_of_range (b * width) (by omega) (by omega),
      wrapInt64_of_range (b * width + a) (by omega) (by omega),
      toSizeT_of_range (b * width + a) (by omega) (by omega)]
    exact ⟨rfl, by omega, hlt⟩
  obtain ⟨hr1, hr2, hr3⟩ := hidx _ _ hdx.1 hdx.2 hdy.1 hdy.2
  obtain ⟨hw1, hw2, hw3⟩ := hidx x y hx.1 hx.2 hy.1 hy.2
  refine ⟨hdx, hdy, hr1, ?_, hw1, ?_⟩
  · unfold readIndex
    simp only
    rw [hr1]
    exact ⟨hr2, hr3⟩
  · unfold writeIndex
    rw [hw1]
    exact ⟨hw2, hw3⟩

theorem guassianBlur_indices_in_range_witness :
    readIndex 4 3 3 0 5 (-5) = 2 * 4 + 3 ∧ readIndex 4 3 3 0 5 (-5) < 12 := by
  have h := guassianBlur_indices_in_range 5 12 4 3 3 0 5 (-5) (by decide) (by decide)
    (by decide) (by decide) (by decide) (by decide) (by decide) (by decide)
  refine ⟨?_, h.2.2.2.1.2⟩
  rw [h.2.2.1]
  decide

/-- C18: for a filter radius that the `int64_t` constant `filterRadius` can hold and
every offset with -R <= i <= R, the kernel index that `filterWeight` computes in
`size_t` arithmetic equals i + R, lies in [0, 2R] and is below the kernel extent
2R + 1. -/
theorem filterWeight_kernel_index (radius : Nat) (i : Int)
    (hR : (radius : Int) < 9223372036854775808)
    (hi : -(radius : Int) ≤ i ∧ i ≤ radius) :
    kernelIndex radius i = i + radius ∧
      0 ≤ kernelIndex radius i ∧ kernelIndex radius i ≤ 2 * radius ∧
      kernelSize radius = 2 * radius + 1 ∧
      kernelIndex radius i < kernelSize radius := by
  obtain ⟨hi0, hi1⟩ := hi
  have hidx : kernelIndex radius i = i + radius := by
    unfold kernelIndex filterWeightIndex filterRadius toSizeT wrapInt64
    omega
  have hsize : kernelSize radius = 2 * radius + 1 := by
    unfold kernelSize filterSize toSizeT wrapInt64
    omega
  rw [hidx, hsize]
  refine ⟨rfl, by omega, by omega, rfl, by omega⟩

theorem filterWeight_kernel_index_witness :
    kernelIndex 2 (-2) = 0 ∧ kernelIndex 2 (-2) < kernelSize 2 := by
  have h := filterWeight_kernel_index 2 (-2) (by decide) (by decide)
  exact ⟨h.1, h.2.2.2.2⟩

end cs.graphics
